import Mathlib

/-!  Verification development for the pytrmm TRMM 3B4XRT reader
(src/pytrmm/trmm3b4xrt.py, Python 2).

Shallow embedding conventions:
  * a Python 2 byte string is `Bytes := List Nat`, one entry per byte;
  * the header dictionary is an insertion-ordered association list, with
    lookup returning the value of the last insertion for a key (Python dict
    assignment semantics under repeated keys);
  * Python exceptions are `Except PyErr`; an `.error` models a raised
    exception propagating out of the function;
  * numpy arrays are lists (1-D) and lists of lists (2-D, row-major);
  * the float32 arithmetic of the scaling stage is idealised as exact
    rational arithmetic, as the specification's "within floating-point
    rounding" allows.
-/

set_option maxRecDepth 8000

/-- Bytes models a Python 2 byte string: a list of byte values. -/
abbrev Bytes := List Nat

/-- strBytes converts an ASCII Lean string literal to the byte list it denotes. -/
def strBytes (s : String) : Bytes := s.data.map Char.toNat

/-- PyErr models the Python exceptions the reader can raise.  Constructors
carry the data that the corresponding Python message interpolates, so that
"the message names X" is expressible; `msgOf` renders the actual message. -/
inductive PyErr where
  /-- IOError from `open`/`GzipFile` on a missing or unreadable path. -/
  | ioErrorMissing (filename : Bytes)
  /-- IOError raised by `read_raw_field` for an out-of-range field number
  (trmm3b4xrt.py lines 93-94). -/
  | cantReadField (fieldNum : Int) (filename : Bytes) (nfields : Int)
  /-- IOError `'Badly formed header in %s'` (trmm3b4xrt.py line 105). -/
  | badHeader (filename : Bytes)
  /-- ValueError (failed `int()`/`float()` parse, failed tuple unpacking,
  or a failed numpy conversion/reshape). -/
  | valueError (msg : Bytes)
  /-- KeyError from a missing dictionary key. -/
  | keyError (key : Bytes)
  /-- IndexError from an out-of-range sequence index. -/
  | indexError
  deriving Repr, DecidableEq

/-- natDigits renders the decimal digits of `n` (fuel-indexed so that the
recursion is structural and kernel-reducible). -/
def natDigits : Nat → Nat → Bytes
  | 0, _ => []
  | fuel + 1, n => if n < 10 then [48 + n] else natDigits fuel (n / 10) ++ [48 + n % 10]

/-- natToBytes renders a natural number in decimal, as Python `%d` does. -/
def natToBytes (n : Nat) : Bytes := natDigits (n + 1) n

/-- intToBytes renders an integer in decimal, as Python `%d` does. -/
def intToBytes (i : Int) : Bytes :=
  if i < 0 then 45 :: natToBytes (-i).toNat else natToBytes i.toNat

/-- msgOf renders the message of each modelled exception, following the
Python format strings of trmm3b4xrt.py. -/
def msgOf : PyErr → Bytes
  | .ioErrorMissing fn => strBytes "No such file or directory: " ++ fn
  | .cantReadField fieldNum fn nfields =>
      strBytes "Can\x27t read field number " ++ intToBytes fieldNum ++
      strBytes ". File " ++ fn ++ strBytes " only contains " ++
      intToBytes nfields ++ strBytes " fields, and fields are indexed from 0."
  | .badHeader fn => strBytes "Badly formed header in " ++ fn
  | .valueError m => m
  | .keyError k => k
  | .indexError => strBytes "list index out of range"

/-- isWsByte tests the six byte values Python `str.split()` treats as
whitespace. -/
def isWsByte (b : Nat) : Bool :=
  decide (b = 32 ∨ b = 9 ∨ b = 10 ∨ b = 13 ∨ b = 11 ∨ b = 12)

/-- splitByGo is the accumulator pass of the splitter: `cur` is the piece
being built (reversed), `acc` the finished pieces (reversed).  The
tail-recursive shape keeps evaluation on concrete 2880-byte headers
iterative. -/
def splitByGo (p : Nat → Bool) (cur : Bytes) (acc : List Bytes) : Bytes → List Bytes
  | [] => (cur.reverse :: acc).reverse
  | b :: rest =>
    if p b then splitByGo p [] (cur.reverse :: acc) rest
    else splitByGo p (b :: cur) acc rest

/-- splitByAux splits a byte string at every byte satisfying `p`, keeping
empty pieces, exactly as Python `str.split(sep)` does.  The result is always
nonempty. -/
def splitByAux (p : Nat → Bool) (l : Bytes) : List Bytes := splitByGo p [] [] l

/-- pySplitWs models Python `s.split()` (no argument): split on runs of
whitespace and drop empty pieces. -/
def pySplitWs (l : Bytes) : List Bytes :=
  (splitByAux isWsByte l).filter (fun t => decide (t ≠ []))

/-- pySplitOnByte models Python `s.split(sep)` for a one-byte separator:
split at every separator byte, keeping empty pieces. -/
def pySplitOnByte (sep : Nat) (l : Bytes) : List Bytes :=
  splitByAux (fun b => decide (b = sep)) l

/-- stripWs models Python `str.strip()`: drop leading and trailing
whitespace bytes. -/
def stripWs (l : Bytes) : Bytes :=
  ((l.dropWhile isWsByte).reverse.dropWhile isWsByte).reverse

/-- allDigits tests that every byte is an ASCII decimal digit. -/
def allDigits (l : Bytes) : Bool := l.all (fun b => decide (48 ≤ b ∧ b ≤ 57))

/-- digitsVal evaluates a string of ASCII digits as a natural number. -/
def digitsVal (l : Bytes) : Nat := l.foldl (fun a b => a * 10 + (b - 48)) 0

/-- pyIntCore models Python 2 `int(s)` on a byte string: strip whitespace,
optional sign, then a nonempty run of decimal digits; anything else fails. -/
def pyIntCore (s : Bytes) : Option Int :=
  match stripWs s with
  | 43 :: rest => if rest ≠ [] ∧ allDigits rest then some (digitsVal rest : Int) else none
  | 45 :: rest => if rest ≠ [] ∧ allDigits rest then some (-(digitsVal rest : Int)) else none
  | rest => if rest ≠ [] ∧ allDigits rest then some (digitsVal rest : Int) else none

/-- pyInt raises ValueError where `int()` does. -/
def pyInt (s : Bytes) : Except PyErr Int :=
  match pyIntCore s with
  | some v => .ok v
  | none => .error (.valueError (strBytes "invalid literal for int(): " ++ s))

/-- pyDecimal evaluates an unsigned decimal literal (`digits`, `digits.`,
`.digits`, `digits.digits`) as an exact rational.  This models the forms
Python `float()` meets in TRMM headers; exponent/inf/nan forms are not
modelled and fail. -/
def pyDecimal (ds : Bytes) : Option ℚ :=
  match pySplitOnByte 46 ds with
  | [ip] => if ip ≠ [] ∧ allDigits ip then some ((digitsVal ip : ℚ)) else none
  | [ip, fp] =>
      if (ip ≠ [] ∨ fp ≠ []) ∧ allDigits ip ∧ allDigits fp then
        some ((digitsVal ip : ℚ) + (digitsVal fp : ℚ) / ((10 : ℚ) ^ fp.length))
      else none
  | _ => none

/-- pyFloatCore models Python `float(s)` on decimal literals: strip
whitespace, optional sign, decimal literal. -/
def pyFloatCore (s : Bytes) : Option ℚ :=
  match stripWs s with
  | 43 :: rest => pyDecimal rest
  | 45 :: rest => (pyDecimal rest).map (fun q => -q)
  | rest => pyDecimal rest

/-- pyFloat raises ValueError where `float()` does. -/
def pyFloat (s : Bytes) : Except PyErr ℚ :=
  match pyFloatCore s with
  | some v => .ok v
  | none => .error (.valueError (strBytes "invalid literal for float(): " ++ s))

/-- HDict is an insertion-ordered association list modelling a Python dict
whose keys and values are byte strings. -/
abbrev HDict := List (Bytes × Bytes)

/-- dictGet looks a key up; with repeated insertions of the same key the
value of the last insertion wins, exactly as for a Python dict built by
successive assignments. -/
def dictGet (d : HDict) (k : Bytes) : Option Bytes :=
  ((d.filter (fun p => decide (p.1 = k))).getLast?).map Prod.snd

/-- dictGetE raises KeyError where `d[k]` does. -/
def dictGetE (d : HDict) (k : Bytes) : Except PyErr Bytes :=
  match dictGet d k with
  | some v => .ok v
  | none => .error (.keyError k)

/-- listGetNatE models Python `l[k]` for a nonnegative index: IndexError
when out of range. -/
def listGetNatE (l : List Int) (k : Nat) : Except PyErr Int :=
  match l.get? k with
  | some v => .ok v
  | none => .error .indexError

/-- listGetI models Python `l[i]` for an arbitrary integer index: negative
indices count from the end; out-of-range raises IndexError. -/
def listGetI {α : Type} (l : List α) (i : Int) : Except PyErr α :=
  let j : Int := if i < 0 then (l.length : Int) + i else i
  if 0 ≤ j then
    match l.get? j.toNat with
    | some v => .ok v
    | none => .error .indexError
  else .error .indexError

/-- pySlice models Python slicing `l[a:b]` with integer endpoints: negative
endpoints count from the end, both endpoints clamp to the list. -/
def pySlice (l : Bytes) (a b : Int) : Bytes :=
  let n : Int := l.length
  let a2 := (if a < 0 then max 0 (n + a) else min a n).toNat
  let b2 := (if b < 0 then max 0 (n + b) else min b n).toNat
  (l.drop a2).take (b2 - a2)

/-! ## The reader itself (TRMM3B4XRTFile and its three variants) -/

/-- parseTokens models the loop of `_read_header` (trmm3b4xrt.py lines
45-48): each token is split on `=` and unpacked as `key, val`; a token that
does not split into exactly two parts raises ValueError (Python tuple
unpacking of the wrong arity).  Insertion order is preserved so that
repeated keys resolve as in a Python dict (last assignment wins, see
`dictGet`). -/
def parseTokens : List Bytes → Except PyErr HDict
  | [] => .ok []
  | t :: ts =>
    match pySplitOnByte 61 t with
    | [k, v] => (parseTokens ts).map (fun d => (k, v) :: d)
    | _ => .error (.valueError (strBytes "unpack requires exactly two values"))

/-- read_header models `_read_header`: split the first 2880 bytes
(`self._header_offset`) on whitespace and parse the `key=value` tokens. -/
def read_header (content : Bytes) : Except PyErr HDict :=
  parseTokens (pySplitWs (content.take 2880))

/-- read_binary models `_read_binary` (trmm3b4xrt.py lines 26-37): the
`disk` argument is the logical (post-gzip-decompression) content of the
file at `filename`, `none` when the path is missing or unreadable, in which
case `open`/`GzipFile` raises IOError.  The open/close lifecycle of the
handle is modelled separately by `read_binary_events`. -/
def read_binary (filename : Bytes) (disk : Option Bytes) : Except PyErr Bytes :=
  match disk with
  | some content => .ok content
  | none => .error (.ioErrorMissing filename)

/-- TRMMFile models the state of a successfully constructed
`TRMM3B4XRTFile` object: `content` is the byte content that every
`_read_binary` re-read deterministically returns (the file is not modified
between calls), `hdr` is `self._hdr`, `rows`/`cols` are
`self._rows`/`self._cols`. -/
structure TRMMFile where
  filename : Bytes
  content : Bytes
  hdr : HDict
  rows : Int
  cols : Int
  deriving Repr, DecidableEq

/-- TRMM_init models `TRMM3B4XRTFile.__init__` (lines 17-24): read the
file, parse the header, then populate the grid dimensions with
`int(self._hdr['number_of_latitude_bins'])` and
`int(self._hdr['number_of_longitude_bins'])`.  Any raised exception
propagates out of the constructor. -/
def TRMM_init (filename : Bytes) (disk : Option Bytes) : Except PyErr TRMMFile :=
  match read_binary filename disk with
  | .error e => .error e
  | .ok content =>
  match read_header content with
  | .error e => .error e
  | .ok hdr =>
  match dictGetE hdr (strBytes "number_of_latitude_bins") with
  | .error e => .error e
  | .ok rs =>
  match pyInt rs with
  | .error e => .error e
  | .ok rows =>
  match dictGetE hdr (strBytes "number_of_longitude_bins") with
  | .error e => .error e
  | .ok cs =>
  match pyInt cs with
  | .error e => .error e
  | .ok cols => .ok ⟨filename, content, hdr, rows, cols⟩

/-- parseDtypeList models line 81-82:
`dtype_list = [int(s[-1]) for s in self._hdr['variable_type'].split(',')]`.
`s[-1]` of an empty string raises IndexError; `int` of a non-digit
character raises ValueError. -/
def parseDtypeList (vt : Bytes) : Except PyErr (List Int) :=
  (pySplitOnByte 44 vt).mapM (fun s =>
    match s.getLast? with
    | none => .error .indexError
    | some c => pyInt [c])

/-- offsetLoop models the `while k >= 0` loop of lines 88-91, called with
`fn = field_num`: it accumulates `dtype_list[k] * rows * cols` for
`k = fn - 1` down to `0` (the recursion checks index `k` before the smaller
indices, as the descending Python loop does). -/
def offsetLoop (dl : List Int) (rc : Int) : Nat → Except PyErr Int
  | 0 => .ok 0
  | Nat.succ k =>
    match listGetNatE dl k with
    | .error e => .error e
    | .ok w =>
      match offsetLoop dl rc k with
      | .error e => .error e
      | .ok rest => .ok (rest + w * rc)

/-- fieldOffset is `strt_offset` after lines 87-91: the header size 2880
plus the accumulated widths of all preceding fields. -/
def fieldOffset (dl : List Int) (rows cols : Int) (fn : Nat) : Except PyErr Int :=
  match offsetLoop dl (rows * cols) fn with
  | .error e => .error e
  | .ok s => .ok (2880 + s)

/-- toSigned8 is the value of a byte reinterpreted as a signed 8-bit
integer (numpy int8). -/
def toSigned8 (b : Nat) : Int := if b < 128 then (b : Int) else (b : Int) - 256

/-- toSigned16 is the value of a 16-bit unsigned code reinterpreted as a
signed 16-bit integer (numpy int16). -/
def toSigned16 (u : Nat) : Int := if u < 32768 then (u : Int) else (u : Int) - 65536

/-- toUnsigned16 recovers the 16-bit unsigned code of a signed 16-bit
value. -/
def toUnsigned16 (v : Int) : Nat := (v % 65536).toNat

/-- swap16u exchanges the two bytes of a 16-bit unsigned code. -/
def swap16u (u : Nat) : Nat := (u % 256) * 256 + u / 256

/-- npByteswap16 models `ndarray.byteswap()` on one int16 element. -/
def npByteswap16 (v : Int) : Int := toSigned16 (swap16u (toUnsigned16 v))

/-- ByteOrder is `sys.byteorder` of the host running the code. -/
inductive ByteOrder where
  | little
  | big
  deriving Repr, DecidableEq

/-- chunkPairs groups a byte string into consecutive pairs, failing on odd
length as `np.fromstring` with a 2-byte dtype does. -/
def chunkPairs : Bytes → Option (List (Nat × Nat))
  | [] => some []
  | [_] => none
  | a :: b :: rest => (chunkPairs rest).map (fun l => (a, b) :: l)

/-- np_fromstring models `np.fromstring(buf, dtype)` for dtype int8/int16:
the buffer is interpreted element-wise in the HOST's native byte order
(numpy default dtypes are native-endian). -/
def np_fromstring (bo : ByteOrder) (w : Nat) (bs : Bytes) : Except PyErr (List Int) :=
  match w with
  | 1 => .ok (bs.map toSigned8)
  | _ =>
    match chunkPairs bs with
    | none => .error (.valueError (strBytes "string size must be a multiple of element size"))
    | some ps => .ok (ps.map (fun pr =>
        match bo with
        | .little => toSigned16 (pr.1 + 256 * pr.2)
        | .big => toSigned16 (256 * pr.1 + pr.2)))

/-- npByteswap models `field.byteswap()` element-wise: a no-op on int8,
`npByteswap16` on int16. -/
def npByteswap (w : Nat) (v : Int) : Int :=
  match w with
  | 1 => v
  | _ => npByteswap16 v

/-- decodeField models lines 109-111: `np.fromstring` of the sliced bytes
followed by `field.byteswap()` exactly when `sys.byteorder == 'little'`. -/
def decodeField (bo : ByteOrder) (w : Nat) (bs : Bytes) : Except PyErr (List Int) :=
  match np_fromstring bo w bs with
  | .error e => .error e
  | .ok l =>
    match bo with
    | .little => .ok (l.map (npByteswap w))
    | .big => .ok l

/-- chunkRows splits a flat element list into `r` consecutive rows of `c`
elements each (row-major, row 0 first). -/
def chunkRows : Nat → List Int → Nat → List (List Int)
  | 0, _, _ => []
  | r + 1, l, c => l.take c :: chunkRows r (l.drop c) c

/-- npReshape models `field.reshape(rows, cols)`: it succeeds exactly when
both extents are nonnegative and the element count matches, producing the
row-major rows. -/
def npReshape (l : List Int) (rows cols : Int) : Except PyErr (List (List Int)) :=
  if 0 ≤ rows ∧ 0 ≤ cols ∧ (l.length : Int) = rows * cols then
    .ok (chunkRows rows.toNat l cols.toNat)
  else .error (.valueError (strBytes "total size of new array must be unchanged"))

/-- RawField is the value `read_raw_field` returns: a numpy integer array,
carrying its element byte width (the dtype, int8 for width 1 and int16 for
width 2) and its row-major 2-D data. -/
structure RawField where
  width : Nat
  data : List (List Int)
  deriving Repr, DecidableEq

/-- decodeReshapeBytes is the decode-and-reshape tail of lines 109-115 on
an already-sliced buffer: `np.fromstring` + conditional byteswap, then
`reshape(rows, cols)`. -/
def decodeReshapeBytes (bo : ByteOrder) (w : Nat) (bs : Bytes) (rows cols : Int) :
    Except PyErr RawField :=
  match decodeField bo w bs with
  | .error e => .error e
  | .ok vals =>
    match npReshape vals rows cols with
    | .error e => .error e
    | .ok m => .ok ⟨w, m⟩

/-- decodeReshape models lines 107-115: re-read the binary content, slice
`[strt_offset:end_offset]`, decode with `np.fromstring` + conditional
byteswap, and reshape to `(rows, cols)`. -/
def decodeReshape (bo : ByteOrder) (w : Nat) (f : TRMMFile) (strt endo : Int) :
    Except PyErr RawField :=
  decodeReshapeBytes bo w (pySlice f.content strt endo) f.rows f.cols

/-- read_raw_field models `TRMM3B4XRTFile.read_raw_field` (lines 64-115),
statement for statement: build `dtype_list`, parse `number_of_variables`,
either compute `strt_offset` (when `field_num in range(nfields)`) or raise
the out-of-range IOError, look up the requested field's `variable_type`
tag, dispatch on it (raising the badly-formed-header IOError on an
unrecognised tag), then slice, decode and reshape. -/
def read_raw_field (bo : ByteOrder) (f : TRMMFile) (field_num : Int) :
    Except PyErr RawField :=
  match dictGetE f.hdr (strBytes "variable_type") with
  | .error e => .error e
  | .ok vt =>
  match parseDtypeList vt with
  | .error e => .error e
  | .ok dtype_list =>
  match dictGetE f.hdr (strBytes "number_of_variables") with
  | .error e => .error e
  | .ok ns =>
  match pyInt ns with
  | .error e => .error e
  | .ok nfields =>
  match (if 0 ≤ field_num ∧ field_num < nfields
         then fieldOffset dtype_list f.rows f.cols field_num.toNat
         else .error (.cantReadField field_num f.filename nfields)) with
  | .error e => .error e
  | .ok strt =>
  match listGetI (pySplitOnByte 44 vt) field_num with
  | .error e => .error e
  | .ok var_type =>
  if var_type = strBytes "signed_integer1" then
    decodeReshape bo 1 f strt (strt + f.rows * f.cols)
  else if var_type = strBytes "signed_integer2" then
    decodeReshape bo 2 f strt (strt + 2 * (f.rows * f.cols))
  else .error (.badHeader f.filename)

/-! ## Scaling/masking engine and the variant accessors -/

/-- OutKind is the `dtype` argument of `_read_scaled_masked_field`:
`np.float32` (the default) or `np.int8` (the pixel-count / source-id
accessors). -/
inductive OutKind where
  | float32
  | int8
  deriving Repr, DecidableEq

/-- MaskedVal is one element of a numpy masked array: the mask flag and the
underlying value (idealised as an exact rational; invalid cells carry no
meaningful value). -/
structure MaskedVal where
  mask : Bool
  val : ℚ
  deriving Repr, DecidableEq

/-- wrap8 is the value of an integer cast to int8 (C conversion: keep the
low byte, reinterpret signed), as `np.ma.asarray(field, np.int8)` does for
int16 input. -/
def wrap8 (v : Int) : Int := (v + 128) % 256 - 128

/-- ratTrunc truncates a rational toward zero, the rounding C (and hence
the era numpy of this Python 2 code) applies when casting a float back to
an integer dtype. -/
def ratTrunc (q : ℚ) : Int :=
  if 0 ≤ q.num then ((q.num.toNat / q.den : Nat) : Int)
  else -(((-q.num).toNat / q.den : Nat) : Int)

/-- castK models `np.ma.asarray(field, dtype)` on one element: float32
keeps the integer value (idealised exactly); int8 wraps to the int8 range.
Out-of-range behaviour beyond this wrap is not exercised by any claim. -/
def castK : OutKind → Int → ℚ
  | .float32, v => (v : ℚ)
  | .int8, v => (wrap8 v : ℚ)

/-- divK models the in-place `field /= scale_factor` (line 60) on one
unmasked element: float32 divides exactly (idealised); for the int8 dtype
the era numpy of this Python 2 code performs the true division and casts
the result back to int8, truncating toward zero (in-range results only are
exercised by the claims). -/
def divK : OutKind → ℚ → ℚ → ℚ
  | .float32, scale, x => x / scale
  | .int8, scale, x => (ratTrunc (x / scale) : ℚ)

/-- scaleMaskElem is the per-element composition of lines 58-60:
`np.ma.masked_equal(raw_field, flag)` then `np.ma.asarray(field, dtype)`
then `field /= scale_factor`.  Masked array in-place arithmetic leaves
masked cells' underlying data untouched. -/
def scaleMaskElem (flag : Int) (scale : ℚ) (kind : OutKind) (v : Int) : MaskedVal :=
  if v = flag then ⟨true, castK kind v⟩
  else ⟨false, divK kind scale (castK kind v)⟩

/-- scaleMaskField applies `scaleMaskElem` over a whole row-major 2-D raw
field. -/
def scaleMaskField (flag : Int) (scale : ℚ) (kind : OutKind)
    (m : List (List Int)) : List (List MaskedVal) :=
  m.map (List.map (scaleMaskElem flag scale kind))

/-- read_scaled_masked_field models `_read_scaled_masked_field` (lines
50-62) in statement order: parse the field's `variable_scale` entry with
`float()`, read the raw field, parse `flag_value` with `int()`, mask cells
equal to the flag, convert to the requested dtype and divide by the scale
factor. -/
def read_scaled_masked_field (bo : ByteOrder) (f : TRMMFile) (field_num : Int)
    (kind : OutKind) : Except PyErr (List (List MaskedVal)) :=
  match dictGetE f.hdr (strBytes "variable_scale") with
  | .error e => .error e
  | .ok vs =>
  match listGetI (pySplitOnByte 44 vs) field_num with
  | .error e => .error e
  | .ok entry =>
  match pyFloat entry with
  | .error e => .error e
  | .ok scale =>
  match read_raw_field bo f field_num with
  | .error e => .error e
  | .ok rf =>
  match dictGetE f.hdr (strBytes "flag_value") with
  | .error e => .error e
  | .ok fs =>
  match pyInt fs with
  | .error e => .error e
  | .ok flag => .ok (scaleMaskField flag scale kind rf.data)

/-- algoWarning renders the non-fatal warning text the variant constructors
emit on an `algorithm_ID` mismatch. -/
def algoWarning (filename algid : Bytes) : Bytes :=
  strBytes "The file " ++ filename ++ strBytes " is apparently not a " ++
  algid ++ strBytes " file."

/-- variantInit models the `__init__` of the three variant classes: run the
base constructor, then compare `self._hdr['algorithm_ID']` with the
variant's expected tag, warning (non-fatally) on a mismatch. -/
def variantInit (expected : Bytes) (filename : Bytes) (disk : Option Bytes) :
    Except PyErr (TRMMFile × List Bytes) :=
  match TRMM_init filename disk with
  | .error e => .error e
  | .ok f =>
  match dictGetE f.hdr (strBytes "algorithm_ID") with
  | .error e => .error e
  | .ok algid =>
    if algid = expected then .ok (f, [])
    else .ok (f, [algoWarning filename algid])

/-- TRMM3B40RT_init models `TRMM3B40RTFile.__init__`. -/
def TRMM3B40RT_init : Bytes → Option Bytes → Except PyErr (TRMMFile × List Bytes) :=
  variantInit (strBytes "3B40RT")

/-- TRMM3B41RT_init models `TRMM3B41RTFile.__init__`. -/
def TRMM3B41RT_init : Bytes → Option Bytes → Except PyErr (TRMMFile × List Bytes) :=
  variantInit (strBytes "3B41RT")

/-- TRMM3B42RT_init models `TRMM3B42RTFile.__init__`. -/
def TRMM3B42RT_init : Bytes → Option Bytes → Except PyErr (TRMMFile × List Bytes) :=
  variantInit (strBytes "3B42RT")

/-- precip models `TRMM3B40RTFile.precip` / `TRMM3B41RTFile.precip` /
`TRMM3B42RTFile.precip`: field 0 with the default float32 dtype. -/
def precip (bo : ByteOrder) (f : TRMMFile) : Except PyErr (List (List MaskedVal)) :=
  read_scaled_masked_field bo f 0 .float32

/-- total_pixels models `TRMM3B40RTFile.total_pixels` (and the 3B41RT
variant): field 2 with `dtype=np.int8`. -/
def total_pixels (bo : ByteOrder) (f : TRMMFile) : Except PyErr (List (List MaskedVal)) :=
  read_scaled_masked_field bo f 2 .int8

/-! ## Handle lifecycle of `_read_binary` (for the resource claim) -/

/-- FEvent is an observable event on the file handle opened by
`_read_binary`. -/
inductive FEvent where
  | opened
  | closed
  deriving Repr, DecidableEq

/-- read_binary_events is the sequence of handle events `_read_binary`
(lines 26-37) performs, as a function of whether `fp.read()` succeeds
(`readOk = false` models a read failure or a gzip decompression failure,
both raised by `fp.read()`).  The code is `fp = ...; data = fp.read();
fp.close(); return data` with no try/finally, so when `fp.read()` raises,
the exception propagates and the `fp.close()` statement is never
executed. -/
def read_binary_events (readOk : Bool) : List FEvent :=
  if readOk then [.opened, .closed] else [.opened]

/-! ## Splitter correspondence and padding-transport lemmas -/

/-- splitBySpec restates the splitter by direct structural recursion; it is
the form the proofs below reason about, and `splitByAux_eq` shows the
accumulator version computes it. -/
def splitBySpec (p : Nat → Bool) : Bytes → List Bytes
  | [] => [[]]
  | b :: rest =>
    match splitBySpec p rest with
    | [] => [[]]
    | cur :: done => if p b then [] :: cur :: done else (b :: cur) :: done

/-- modHead glues a prefix onto the first piece of a piece list. -/
def modHead (x : Bytes) : List Bytes → List Bytes
  | [] => [x]
  | y :: ys => (x ++ y) :: ys

theorem splitBySpec_ne_nil (p : Nat → Bool) (l : Bytes) : splitBySpec p l ≠ [] := by
  cases l with
  | nil => simp [splitBySpec]
  | cons b rest =>
    simp only [splitBySpec]
    cases h : splitBySpec p rest with
    | nil => simp
    | cons c d =>
      by_cases hp : p b <;> simp [hp]

theorem splitByGo_eq (p : Nat → Bool) (l : Bytes) : ∀ cur acc,
    splitByGo p cur acc l = acc.reverse ++ modHead cur.reverse (splitBySpec p l) := by
  induction l with
  | nil => intro cur acc; simp [splitByGo, splitBySpec, modHead]
  | cons b rest ih =>
    intro cur acc
    obtain ⟨c, d, hcd⟩ : ∃ c d, splitBySpec p rest = c :: d := by
      cases h : splitBySpec p rest with
      | nil => exact absurd h (splitBySpec_ne_nil p rest)
      | cons c d => exact ⟨c, d, rfl⟩
    by_cases hp : p b
    · simp only [splitByGo, hp, if_pos, ih, splitBySpec, hcd, modHead]
      simp [modHead]
    · simp only [splitByGo, hp, if_neg, not_false_iff, ih, splitBySpec, hcd, modHead]
      simp [modHead, List.append_assoc]

theorem splitByAux_eq (p : Nat → Bool) (l : Bytes) : splitByAux p l = splitBySpec p l := by
  rw [splitByAux, splitByGo_eq]
  obtain ⟨c, d, hcd⟩ : ∃ c d, splitBySpec p l = c :: d := by
    cases h : splitBySpec p l with
    | nil => exact absurd h (splitBySpec_ne_nil p l)
    | cons c d => exact ⟨c, d, rfl⟩
  simp [hcd, modHead]

theorem splitBySpec_sep_cons (p : Nat → Bool) (s : Nat) (hp : p s = true) (l : Bytes) :
    splitBySpec p (s :: l) = [] :: splitBySpec p l := by
  obtain ⟨c, d, hcd⟩ : ∃ c d, splitBySpec p l = c :: d := by
    cases h : splitBySpec p l with
    | nil => exact absurd h (splitBySpec_ne_nil p l)
    | cons c d => exact ⟨c, d, rfl⟩
  simp [splitBySpec, hcd, hp]

theorem splitBySpec_append_sep (p : Nat → Bool) (s : Nat) (hp : p s = true)
    (xs ys : Bytes) :
    splitBySpec p (xs ++ s :: ys) = splitBySpec p xs ++ splitBySpec p ys := by
  induction xs with
  | nil =>
    rw [List.nil_append, splitBySpec_sep_cons p s hp]
    simp [splitBySpec]
  | cons x xs ih =>
    obtain ⟨c, d, hcd⟩ : ∃ c d, splitBySpec p xs = c :: d := by
      cases h : splitBySpec p xs with
      | nil => exact absurd h (splitBySpec_ne_nil p xs)
      | cons c d => exact ⟨c, d, rfl⟩
    have hl : (x :: xs) ++ s :: ys = x :: (xs ++ s :: ys) := rfl
    rw [hl]
    simp only [splitBySpec, ih, hcd]
    by_cases hx : p x <;> simp [hx]

theorem splitBySpec_replicate_ws (m : Nat) :
    ∀ t ∈ splitBySpec isWsByte (List.replicate m 32), t = [] := by
  induction m with
  | zero => simp [splitBySpec]
  | succ k ih =>
    rw [List.replicate_succ, splitBySpec_sep_cons isWsByte 32 (by decide)]
    intro t ht
    rcases List.mem_cons.mp ht with heq | hmem
    · exact heq
    · exact ih t hmem

theorem pySplitWs_append_ws_replicate (h : Bytes) (m : Nat) :
    pySplitWs (h ++ List.replicate m 32) = pySplitWs h := by
  cases m with
  | zero => simp
  | succ k =>
    rw [List.replicate_succ]
    unfold pySplitWs
    rw [splitByAux_eq, splitByAux_eq,
      splitBySpec_append_sep isWsByte 32 (by decide), List.filter_append]
    have hnil : (splitBySpec isWsByte (List.replicate k 32)).filter
        (fun t => decide (t ≠ [])) = [] := by
      rw [List.filter_eq_nil_iff]
      intro t ht
      simp [splitBySpec_replicate_ws k t ht]
    rw [hnil, List.append_nil]

/-- padTo2880 pads a short header text with spaces to the fixed 2880-byte
header block size. -/
def padTo2880 (h : Bytes) : Bytes := h ++ List.replicate (2880 - h.length) 32

/-- mkContent builds a synthetic file: a padded 2880-byte header block
followed by the binary payload. -/
def mkContent (h payload : Bytes) : Bytes := padTo2880 h ++ payload

theorem padTo2880_length (h : Bytes) (hle : h.length ≤ 2880) :
    (padTo2880 h).length = 2880 := by
  simp [padTo2880]
  omega

theorem mkContent_length (h payload : Bytes) (hle : h.length ≤ 2880) :
    (mkContent h payload).length = 2880 + payload.length := by
  simp [mkContent, padTo2880_length h hle]

theorem mkContent_take (h payload : Bytes) (hle : h.length ≤ 2880) :
    (mkContent h payload).take 2880 = padTo2880 h :=
  List.take_left' (padTo2880_length h hle)

theorem read_header_mkContent (h payload : Bytes) (hle : h.length ≤ 2880) :
    read_header (mkContent h payload) = parseTokens (pySplitWs h) := by
  rw [read_header, mkContent_take h payload hle, padTo2880,
    pySplitWs_append_ws_replicate]

theorem pySlice_mkContent (h payload : Bytes) (hle : h.length ≤ 2880)
    (i j : Int) (hi : 0 ≤ i) (hij : i ≤ j) (hj : j ≤ payload.length) :
    pySlice (mkContent h payload) (2880 + i) (2880 + j) = pySlice payload i j := by
  have hlen : ((mkContent h payload).length : Int) = 2880 + payload.length := by
    rw [mkContent_length h payload hle]; push_cast; ring
  have hplen : (padTo2880 h).length = 2880 := padTo2880_length h hle
  simp only [pySlice, hlen]
  have h1 : ¬ (2880 + i < 0) := by omega
  have h2 : ¬ (2880 + j < 0) := by omega
  have h3 : ¬ (i < 0) := by omega
  have h4 : ¬ (j < 0) := by omega
  simp only [h1, h2, h3, h4, if_neg, not_false_iff]
  have hmin1 : min (2880 + i) (2880 + (payload.length : Int)) = 2880 + i := by omega
  have hmin2 : min (2880 + j) (2880 + (payload.length : Int)) = 2880 + j := by omega
  have hmin3 : min i (payload.length : Int) = i := by omega
  have hmin4 : min j (payload.length : Int) = j := by omega
  rw [hmin1, hmin2, hmin3, hmin4]
  have ht1 : (2880 + i).toNat = 2880 + i.toNat := by omega
  have ht2 : (2880 + j).toNat = 2880 + j.toNat := by omega
  rw [ht1, ht2]
  have hdrop : (mkContent h payload).drop (2880 + i.toNat) = payload.drop i.toNat := by
    have : (2880 : Nat) + i.toNat = (padTo2880 h).length + i.toNat := by omega
    rw [this, mkContent, List.drop_append]
  rw [hdrop]
  have harith : 2880 + j.toNat - (2880 + i.toNat) = j.toNat - i.toNat := by omega
  rw [harith]

/-! ## Generic helpers for concrete evaluation -/

instance exceptDecEq {ε α : Type} [DecidableEq ε] [DecidableEq α] :
    DecidableEq (Except ε α) := fun a b =>
  match a, b with
  | .ok x, .ok y =>
    match decEq x y with
    | .isTrue h => .isTrue (by rw [h])
    | .isFalse h => .isFalse (by intro hc; cases hc; exact h rfl)
  | .error x, .error y =>
    match decEq x y with
    | .isTrue h => .isTrue (by rw [h])
    | .isFalse h => .isFalse (by intro hc; cases hc; exact h rfl)
  | .ok _, .error _ => .isFalse (by intro hc; cases hc)
  | .error _, .ok _ => .isFalse (by intro hc; cases hc)

theorem listGetNatE_lt (dl : List Int) (m : Nat) (h : m < dl.length) :
    listGetNatE dl m = .ok (dl.getD m 0) := by
  unfold listGetNatE
  cases hg : dl.get? m with
  | none =>
    rw [List.get?_eq_none] at hg
    omega
  | some v =>
    have hv : dl.getD m 0 = v := by
      rw [List.getD_eq_get?, hg]
      rfl
    rw [hv]

/-! ## Claim C1: the field offset formula -/

theorem offsetLoop_ok (dl : List Int) (rc : Int) (n : Nat) (h : n ≤ dl.length) :
    offsetLoop dl rc n = .ok (∑ k ∈ Finset.range n, dl.getD k 0 * rc) := by
  induction n with
  | zero => simp [offsetLoop]
  | succ m ih =>
    have hlt : m < dl.length := h
    rw [offsetLoop, listGetNatE_lt dl m hlt, ih (Nat.le_of_lt hlt)]
    rw [Finset.sum_range_succ]

theorem fieldOffset_ok (dl : List Int) (rows cols : Int) (n : Nat) (h : n ≤ dl.length) :
    fieldOffset dl rows cols n
      = .ok (2880 + ∑ k ∈ Finset.range n, dl.getD k 0 * (rows * cols)) := by
  rw [fieldOffset, offsetLoop_ok dl (rows * cols) n h]

theorem getD_set_self (l : List Int) (j : Nat) (w : Int) (h : j < l.length) :
    (l.set j w).getD j 0 = w := by
  rw [List.getD_eq_getElem?_getD, List.getElem?_set_self']
  simp [List.getElem?_eq_getElem h]

theorem getD_set_ne (l : List Int) (j k : Nat) (w : Int) (h : j ≠ k) :
    (l.set j w).getD k 0 = l.getD k 0 := by
  rw [List.getD_eq_getElem?_getD, List.getElem?_set_ne h, ← List.getD_eq_getElem?_getD]

theorem sum_set_width (dl : List Int) (rc : Int) (i j : Nat) (hj : j < i)
    (hi : i ≤ dl.length) (w : Int) :
    ∑ k ∈ Finset.range i, (dl.set j w).getD k 0 * rc
      = (∑ k ∈ Finset.range i, dl.getD k 0 * rc) + (w - dl.getD j 0) * rc := by
  have hstep : ∀ k ∈ Finset.range i, (dl.set j w).getD k 0 * rc
      = dl.getD k 0 * rc + (if k = j then (w - dl.getD j 0) * rc else 0) := by
    intro k hk
    by_cases hkj : k = j
    · subst hkj
      rw [getD_set_self dl k w (by omega), if_pos rfl]
      ring
    · rw [getD_set_ne dl j k w (fun he => hkj he.symm), if_neg hkj]
      ring
  rw [Finset.sum_congr rfl hstep, Finset.sum_add_distrib]
  rw [Finset.sum_ite_eq' (Finset.range i) j (fun _ => (w - dl.getD j 0) * rc)]
  rw [if_pos (Finset.mem_range.mpr hj)]

/-- C1: for every header and every valid field index `i`, the byte offset
at which `read_raw_field` slices field `i` (the `strt_offset` computed by
`fieldOffset`, which `read_raw_field` passes to its slice) equals 2880 plus
the sum over `k < i` of `byte_width_k * rows * cols`, where `byte_width_k`
is the width parsed from the `variable_type` entry of field `k`; the offset
of field 0 is exactly 2880; and changing the declared width of any field
`j < i` to `w` changes the offset of field `i` by `(w - old_width_j) *
rows * cols`. -/
theorem C1_field_offset (vt : Bytes) (dl : List Int) (rows cols : Int) (i : Nat)
    (hdl : parseDtypeList vt = .ok dl) (hi : i ≤ dl.length) :
    fieldOffset dl rows cols i
        = .ok (2880 + ∑ k ∈ Finset.range i, dl.getD k 0 * (rows * cols))
      ∧ fieldOffset dl rows cols 0 = .ok 2880
      ∧ ∀ j, j < i → ∀ w : Int,
          fieldOffset (dl.set j w) rows cols i
            = .ok ((2880 + ∑ k ∈ Finset.range i, dl.getD k 0 * (rows * cols))
                   + (w - dl.getD j 0) * (rows * cols)) := by
  refine ⟨fieldOffset_ok dl rows cols i hi, ?_, ?_⟩
  · rw [fieldOffset_ok dl rows cols 0 (Nat.zero_le _)]
    simp
  · intro j hj w
    have hlen : i ≤ (dl.set j w).length := by
      rw [List.length_set]
      exact hi
    rw [fieldOffset_ok (dl.set j w) rows cols i hlen,
      sum_set_width dl (rows * cols) i j hj hi w]
    rw [add_assoc]

/-- C1 witness: a concrete two-field header (`signed_integer2` then
`signed_integer1`, a 1x2 grid): field 1 sits at 2880 + 2*1*2 = 2884, and
widening field 0 to 5 bytes moves field 1 to 2890. -/
theorem C1_field_offset_witness :
    parseDtypeList (strBytes "signed_integer2,signed_integer1") = .ok [2, 1]
    ∧ (1 : Nat) ≤ ([2, 1] : List Int).length
    ∧ fieldOffset [2, 1] 1 2 1 = .ok 2884
    ∧ fieldOffset [2, 1] 1 2 0 = .ok 2880
    ∧ fieldOffset (([2, 1] : List Int).set 0 5) 1 2 1 = .ok 2890 := by
  have h := C1_field_offset (strBytes "signed_integer2,signed_integer1") [2, 1] 1 2 1
    (by decide) (by decide)
  exact ⟨by decide, by decide, h.1.trans (by decide), h.2.1, (h.2.2 0 (by decide) 5).trans (by decide)⟩

/-! ## Claim C7: out-of-range field numbers -/

/-- C7: for every field index outside `[0, number_of_variables)` —
negative indices included — `read_raw_field` raises the out-of-range
IOError (so it never returns data), and the error's message interpolates
the requested index, the filename and the field count. -/
theorem C7_out_of_range (bo : ByteOrder) (f : TRMMFile) (field_num : Int)
    (vt : Bytes) (dl : List Int) (ns : Bytes) (nfields : Int)
    (hvt : dictGet f.hdr (strBytes "variable_type") = some vt)
    (hdl : parseDtypeList vt = .ok dl)
    (hns : dictGet f.hdr (strBytes "number_of_variables") = some ns)
    (hnf : pyInt ns = .ok nfields)
    (hout : ¬ (0 ≤ field_num ∧ field_num < nfields)) :
    read_raw_field bo f field_num = .error (.cantReadField field_num f.filename nfields)
    ∧ ∃ p1 p2 p3 p4,
        msgOf (.cantReadField field_num f.filename nfields)
          = p1 ++ (intToBytes field_num ++ (p2 ++ (f.filename
              ++ (p3 ++ (intToBytes nfields ++ p4))))) := by
  constructor
  · simp only [read_raw_field, dictGetE, hvt, hdl, hns, hnf, if_neg hout]
  · exact ⟨strBytes "Can\x27t read field number ", strBytes ". File ",
      strBytes " only contains ",
      strBytes " fields, and fields are indexed from 0.", by simp [msgOf]⟩

/-- C7 witness: a two-field header queried at the negative index -1
produces the out-of-range IOError carrying index, filename and count. -/
theorem C7_out_of_range_witness :
    dictGet [(strBytes "variable_type", strBytes "signed_integer1,signed_integer1"),
             (strBytes "number_of_variables", strBytes "2")]
        (strBytes "variable_type") = some (strBytes "signed_integer1,signed_integer1")
    ∧ read_raw_field .little
        ⟨strBytes "t.bin", [],
         [(strBytes "variable_type", strBytes "signed_integer1,signed_integer1"),
          (strBytes "number_of_variables", strBytes "2")], 2, 3⟩ (-1)
        = .error (.cantReadField (-1) (strBytes "t.bin") 2) := by
  refine ⟨by decide, ?_⟩
  exact (C7_out_of_range .little
    ⟨strBytes "t.bin", [],
     [(strBytes "variable_type", strBytes "signed_integer1,signed_integer1"),
      (strBytes "number_of_variables", strBytes "2")], 2, 3⟩ (-1)
    (strBytes "signed_integer1,signed_integer1") [1, 1] (strBytes "2") 2
    (by decide) (by decide) (by decide) (by decide) (by decide)).1

/-! ## Claim C9: handle lifecycle of the binary loader -/

/-- C9 (refuting the claim): `_read_binary` has no try/finally, so when
`fp.read()` raises (an I/O failure, or the gzip decompression failure a
corrupt archive causes at read time), the exception propagates and the
`fp.close()` statement never executes: the load terminates with the handle
still open.  Only the successful path closes the handle. -/
theorem C9_handle_leak :
    read_binary_events false = [FEvent.opened]
    ∧ FEvent.closed ∉ read_binary_events false
    ∧ read_binary_events true = [FEvent.opened, FEvent.closed] := by
  refine ⟨rfl, by decide, rfl⟩

/-! ## Claim C6: header tokenisation -/

/-- tokPair is the (key, value) pair a well-formed `key=value` token
denotes. -/
def tokPair (t : Bytes) : Bytes × Bytes :=
  ((pySplitOnByte 61 t).getD 0 [], (pySplitOnByte 61 t).getD 1 [])

theorem splitBySpec_no_sep (p : Nat → Bool) (l : Bytes)
    (h : ∀ b ∈ l, p b = false) : splitBySpec p l = [l] := by
  induction l with
  | nil => simp [splitBySpec]
  | cons b rest ih =>
    have hrest : splitBySpec p rest = [rest] := ih (fun x hx => h x (List.mem_cons_of_mem b hx))
    have hb : p b = false := h b (List.mem_cons_self b rest)
    simp [splitBySpec, hrest, hb]

theorem pySplitOnByte_no_sep (sep : Nat) (l : Bytes) (h : sep ∉ l) :
    pySplitOnByte sep l = [l] := by
  rw [pySplitOnByte, splitByAux_eq]
  exact splitBySpec_no_sep _ l (fun b hb => by
    simp only [decide_eq_false_iff_not]
    intro he
    exact h (he ▸ hb))

theorem pySplitOnByte_pair (sep : Nat) (k v : Bytes) (hk : sep ∉ k) (hv : sep ∉ v) :
    pySplitOnByte sep (k ++ sep :: v) = [k, v] := by
  rw [pySplitOnByte, splitByAux_eq,
    splitBySpec_append_sep _ sep (by simp)]
  have h1 : splitBySpec (fun b => decide (b = sep)) k = [k] :=
    splitBySpec_no_sep _ k (fun b hb => by
      simp only [decide_eq_false_iff_not]
      intro he
      exact hk (he ▸ hb))
  have h2 : splitBySpec (fun b => decide (b = sep)) v = [v] :=
    splitBySpec_no_sep _ v (fun b hb => by
      simp only [decide_eq_false_iff_not]
      intro he
      exact hv (he ▸ hb))
  rw [h1, h2]
  rfl

theorem parseTokens_ok_of_pairs (ts : List Bytes)
    (h : ∀ t ∈ ts, (pySplitOnByte 61 t).length = 2) :
    parseTokens ts = .ok (ts.map tokPair) := by
  induction ts with
  | nil => rfl
  | cons t ts ih =>
    have ht := h t (List.mem_cons_self t ts)
    obtain ⟨k, v, hkv⟩ : ∃ k v, pySplitOnByte 61 t = [k, v] := by
      cases hsp : pySplitOnByte 61 t with
      | nil => rw [hsp] at ht; simp at ht
      | cons a l =>
        cases l with
        | nil => rw [hsp] at ht; simp at ht
        | cons b l2 =>
          cases l2 with
          | nil => exact ⟨a, b, rfl⟩
          | cons c l3 => rw [hsp] at ht; simp at ht
    have htp : tokPair t = (k, v) := by
      rw [tokPair, hkv]
      rfl
    rw [parseTokens, hkv, ih (fun x hx => h x (List.mem_cons_of_mem t hx))]
    rw [List.map_cons, htp]
    rfl

theorem parseTokens_error_of_bad (ts : List Bytes)
    (h : ∃ t ∈ ts, (pySplitOnByte 61 t).length ≠ 2) :
    ∃ e, parseTokens ts = .error e := by
  induction ts with
  | nil => simp at h
  | cons t ts ih =>
    by_cases hbad : (pySplitOnByte 61 t).length = 2
    · obtain ⟨k, v, hkv⟩ : ∃ k v, pySplitOnByte 61 t = [k, v] := by
        cases hsp : pySplitOnByte 61 t with
        | nil => rw [hsp] at hbad; simp at hbad
        | cons a l =>
          cases l with
          | nil => rw [hsp] at hbad; simp at hbad
          | cons b l2 =>
            cases l2 with
            | nil => exact ⟨a, b, rfl⟩
            | cons c l3 => rw [hsp] at hbad; simp at hbad
      obtain ⟨t', ht', hlen'⟩ := h
      rcases List.mem_cons.mp ht' with heq | hmem
      · rw [heq] at hlen'; exact absurd hbad hlen'
      · obtain ⟨e, he⟩ := ih ⟨t', hmem, hlen'⟩
        refine ⟨e, ?_⟩
        rw [parseTokens, hkv, he]
        rfl
    · refine ⟨?_, ?_⟩
      · exact .valueError (strBytes "unpack requires exactly two values")
      · cases hsp : pySplitOnByte 61 t with
        | nil => rw [parseTokens]; rw [hsp]
        | cons a l =>
          cases l with
          | nil => rw [parseTokens, hsp]
          | cons b l2 =>
            cases l2 with
            | nil => rw [hsp] at hbad; simp at hbad
            | cons c l3 => rw [parseTokens, hsp]

theorem dictGet_append_last (d1 : HDict) (k v : Bytes) (d2 : HDict)
    (h : ∀ p ∈ d2, p.1 ≠ k) :
    dictGet (d1 ++ (k, v) :: d2) k = some v := by
  unfold dictGet
  rw [List.filter_append]
  have h2 : d2.filter (fun p => decide (p.1 = k)) = [] := by
    rw [List.filter_eq_nil_iff]
    intro p hp
    simpa using h p hp
  have h3 : ((k, v) :: d2).filter (fun p => decide (p.1 = k)) = [(k, v)] := by
    rw [List.filter_cons]
    simp [h2]
  rw [h3, List.getLast?_concat]
  rfl

/-- C6 (amended): the header parser splits the 2880-byte block on
whitespace and splits each token on `=`, but it requires EXACTLY one `=`
per token (Python `key, val = item.split('=')` unpacks exactly two parts):
when every token splits into exactly two parts the parse succeeds and a key
occurring in several tokens maps to the value of its last occurrence, a
token with no `=` makes the parse fail, and — contrary to the claim as
written — a token with more than one `=` also makes the parse fail instead
of keeping everything after the first `=` as the value. -/
theorem C6_header_parse (content : Bytes) :
    read_header content = parseTokens (pySplitWs (content.take 2880))
    ∧ ((∀ t ∈ pySplitWs (content.take 2880), (pySplitOnByte 61 t).length = 2) →
        read_header content = .ok ((pySplitWs (content.take 2880)).map tokPair)
        ∧ ∀ ts1 k v ts2, pySplitWs (content.take 2880) = ts1 ++ (k ++ 61 :: v) :: ts2 →
            61 ∉ k → 61 ∉ v →
            (∀ t ∈ ts2, (pySplitOnByte 61 t).getD 0 [] ≠ k) →
            dictGet ((pySplitWs (content.take 2880)).map tokPair) k = some v)
    ∧ ((∃ t ∈ pySplitWs (content.take 2880), 61 ∉ t) →
        ∃ e, read_header content = .error e)
    ∧ ((∃ t ∈ pySplitWs (content.take 2880), 3 ≤ (pySplitOnByte 61 t).length) →
        ∃ e, read_header content = .error e) := by
  refine ⟨rfl, fun hall => ⟨?_, ?_⟩, fun hbad => ?_, fun hbad => ?_⟩
  · rw [read_header, parseTokens_ok_of_pairs _ hall]
  · intro ts1 k v ts2 hts hk hv hkeys
    rw [hts, List.map_append, List.map_cons]
    have htp : tokPair (k ++ 61 :: v) = (k, v) := by
      rw [tokPair, pySplitOnByte_pair 61 k v hk hv]
      rfl
    rw [htp]
    refine dictGet_append_last _ k v _ ?_
    intro p hp
    obtain ⟨t, ht, hpt⟩ := List.mem_map.mp hp
    have := hkeys t ht
    rw [← hpt, tokPair]
    exact this
  · obtain ⟨t, ht, hno⟩ := hbad
    refine parseTokens_error_of_bad _ ⟨t, ht, ?_⟩
    rw [pySplitOnByte_no_sep 61 t hno]
    simp
  · obtain ⟨t, ht, hlen⟩ := hbad
    exact parseTokens_error_of_bad _ ⟨t, ht, by omega⟩

/-- C6 counterexample: the claim says a token whose value contains `=`
parses successfully with everything after the first `=` kept as the value;
on the code, the header block `flag_value=3 a=b=c` instead raises a
ValueError (the three-way split cannot be unpacked into `key, val`), so no
mapping with `a ↦ b=c` is ever produced. -/
theorem C6_counterexample :
    read_header (strBytes "flag_value=3 a=b=c")
      = .error (.valueError (strBytes "unpack requires exactly two values"))
    ∧ read_header (strBytes "flag_value=3 a=b=c")
      ≠ .ok [(strBytes "flag_value", strBytes "3"), (strBytes "a", strBytes "b=c")] := by
  refine ⟨by decide, by decide⟩

/-- C6 witness: on the header block `a=1 b=2 a=3` (a duplicate key), the
parse succeeds and the duplicate key `a` maps to the value of its last
occurrence, `3`. -/
theorem C6_header_parse_witness :
    (∀ t ∈ pySplitWs ((strBytes "a=1 b=2 a=3").take 2880),
        (pySplitOnByte 61 t).length = 2)
    ∧ read_header (strBytes "a=1 b=2 a=3")
        = .ok [(strBytes "a", strBytes "1"), (strBytes "b", strBytes "2"),
               (strBytes "a", strBytes "3")]
    ∧ dictGet ((pySplitWs ((strBytes "a=1 b=2 a=3").take 2880)).map tokPair)
        (strBytes "a") = some (strBytes "3") := by
  have h := (C6_header_parse (strBytes "a=1 b=2 a=3")).2.1 (by decide)
  refine ⟨by decide, h.1.trans (by decide), ?_⟩
  exact h.2 [strBytes "a=1", strBytes "b=2"] (strBytes "a") (strBytes "3") []
    (by decide) (by decide) (by decide) (by decide)

/-! ## Claims C3/C4: decode correctness infrastructure -/

/-- beSigned2 is the specification-side reference decode for width 2: the
big-endian signed 16-bit interpretation of consecutive byte pairs (a
trailing odd byte, never present in the cases proved about, is dropped). -/
def beSigned2 : Bytes → List Int
  | b0 :: b1 :: rest => toSigned16 (256 * b0 + b1) :: beSigned2 rest
  | _ => []

/-- beSigned is the specification-side reference decode: the big-endian
signed interpretation of a buffer at the given element byte width (§4.3 of
the specification: "interpret as an array of big-endian signed integers of
the given width"). -/
def beSigned (w : Nat) (bs : Bytes) : List Int :=
  match w with
  | 1 => bs.map toSigned8
  | _ => beSigned2 bs

theorem le_swap_eq_be (b0 b1 : Nat) (h0 : b0 < 256) (h1 : b1 < 256) :
    npByteswap16 (toSigned16 (b0 + 256 * b1)) = toSigned16 (256 * b0 + b1) := by
  unfold npByteswap16 toUnsigned16 swap16u toSigned16
  have hcast : ((b0 + 256 * b1 : Nat) : Int) = (b0 : Int) + 256 * (b1 : Int) := by
    push_cast
    ring
  have e2 : (b0 + 256 * b1) % 256 = b0 := by omega
  have e3 : (b0 + 256 * b1) / 256 = b1 := by omega
  have e4 : b0 * 256 + b1 = 256 * b0 + b1 := by ring
  by_cases hc : b0 + 256 * b1 < 32768
  · rw [if_pos hc, hcast]
    have e1 : ((((b0 : Int) + 256 * (b1 : Int)) % 65536).toNat) = b0 + 256 * b1 := by
      omega
    rw [e1, e2, e3, e4]
  · rw [if_neg hc, hcast]
    have e1 : (((((b0 : Int) + 256 * (b1 : Int)) - 65536) % 65536).toNat)
        = b0 + 256 * b1 := by omega
    rw [e1, e2, e3, e4]

theorem chunkPairs_even : ∀ (bs : Bytes), bs.length % 2 = 0 →
    ∃ ps, chunkPairs bs = some ps
      ∧ (∀ pr ∈ ps, pr.1 ∈ bs ∧ pr.2 ∈ bs)
      ∧ ps.map (fun pr => toSigned16 (256 * pr.1 + pr.2)) = beSigned2 bs
      ∧ ps.length = bs.length / 2
  | [], _ => ⟨[], rfl, by simp, by simp [beSigned2], by simp⟩
  | [b], h => by simp at h
  | b0 :: b1 :: rest, h => by
      obtain ⟨ps, hcp, hmem, hmap, hlen⟩ := chunkPairs_even rest (by
        simp only [List.length_cons] at h
        omega)
      refine ⟨(b0, b1) :: ps, ?_, ?_, ?_, ?_⟩
      · simp [chunkPairs, hcp]
      · intro pr hpr
        rcases List.mem_cons.mp hpr with heq | hmem2
        · subst heq
          exact ⟨List.mem_cons_self _ _, List.mem_cons_of_mem _ (List.mem_cons_self _ _)⟩
        · have := hmem pr hmem2
          exact ⟨List.mem_cons_of_mem _ (List.mem_cons_of_mem _ this.1),
            List.mem_cons_of_mem _ (List.mem_cons_of_mem _ this.2)⟩
      · simp [beSigned2, hmap]
      · simp only [List.length_cons, hlen]
        omega

theorem decodeField_one (bo : ByteOrder) (bs : Bytes) :
    decodeField bo 1 bs = .ok (bs.map toSigned8) := by
  cases bo
  · simp only [decodeField, np_fromstring]
    rw [show (npByteswap 1) = (fun v : Int => v) from rfl, List.map_id']
  · rfl

theorem decodeField_two (bo : ByteOrder) (bs : Bytes)
    (hb : ∀ b ∈ bs, b < 256) (he : bs.length % 2 = 0) :
    decodeField bo 2 bs = .ok (beSigned2 bs) := by
  obtain ⟨ps, hcp, hmem, hmap, _⟩ := chunkPairs_even bs he
  cases bo
  · simp only [decodeField, np_fromstring, hcp]
    rw [List.map_map]
    have hcg : ps.map ((npByteswap 2) ∘ (fun pr => toSigned16 (pr.1 + 256 * pr.2)))
        = ps.map (fun pr => toSigned16 (256 * pr.1 + pr.2)) := by
      refine List.map_congr_left ?_
      intro pr hpr
      have h1 := hb pr.1 (hmem pr hpr).1
      have h2 := hb pr.2 (hmem pr hpr).2
      simp only [Function.comp_apply, npByteswap]
      exact le_swap_eq_be pr.1 pr.2 h1 h2
    rw [hcg, hmap]
  · simp only [decodeField, np_fromstring, hcp, hmap]

theorem beSigned2_length (bs : Bytes) (he : bs.length % 2 = 0) :
    (beSigned2 bs).length = bs.length / 2 := by
  obtain ⟨ps, _, _, hmap, hlen⟩ := chunkPairs_even bs he
  rw [← hmap, List.length_map, hlen]

theorem beSigned2_mem_range : ∀ (bs : Bytes), (∀ b ∈ bs, b < 256) →
    ∀ v ∈ beSigned2 bs, -32768 ≤ v ∧ v < 32768
  | [], _, v, hv => by simp [beSigned2] at hv
  | [b], _, v, hv => by simp [beSigned2] at hv
  | b0 :: b1 :: rest, hb, v, hv => by
      rw [beSigned2] at hv
      rcases List.mem_cons.mp hv with heq | hmem
      · subst heq
        have h0 : b0 < 256 := hb b0 (List.mem_cons_self _ _)
        have h1 : b1 < 256 := hb b1 (List.mem_cons_of_mem _ (List.mem_cons_self _ _))
        unfold toSigned16
        by_cases hc : 256 * b0 + b1 < 32768
        · rw [if_pos hc]; omega
        · rw [if_neg hc]; omega
      · exact beSigned2_mem_range rest
          (fun b hbm => hb b (List.mem_cons_of_mem _ (List.mem_cons_of_mem _ hbm)))
          v hmem

theorem toSigned8_range (b : Nat) (hb : b < 256) :
    -128 ≤ toSigned8 b ∧ toSigned8 b < 128 := by
  unfold toSigned8
  by_cases hc : b < 128
  · rw [if_pos hc]; omega
  · rw [if_neg hc]; omega

theorem pySlice_length (l : Bytes) (a b : Int) (ha : 0 ≤ a) (hab : a ≤ b)
    (hb : b ≤ (l.length : Int)) : ((pySlice l a b).length : Int) = b - a := by
  simp only [pySlice]
  rw [if_neg (by omega), if_neg (by omega)]
  have h1 : min a (l.length : Int) = a := min_eq_left (by omega)
  have h2 : min b (l.length : Int) = b := min_eq_left (by omega)
  rw [h1, h2, List.length_take, List.length_drop]
  omega

theorem pySlice_subset (l : Bytes) (a b : Int) :
    ∀ x ∈ pySlice l a b, x ∈ l := by
  intro x hx
  simp only [pySlice] at hx
  exact List.mem_of_mem_drop (List.mem_of_mem_take hx)

theorem chunkRows_length (r : Nat) : ∀ (l : List Int) (c : Nat),
    (chunkRows r l c).length = r := by
  induction r with
  | zero => intro l c; rfl
  | succ m ih => intro l c; simp [chunkRows, ih]

theorem chunkRows_row_length (r : Nat) : ∀ (l : List Int) (c : Nat),
    l.length = r * c → ∀ row ∈ chunkRows r l c, row.length = c := by
  induction r with
  | zero => intro l c _ row hrow; simp [chunkRows] at hrow
  | succ m ih =>
    intro l c hlen row hrow
    rw [chunkRows] at hrow
    rcases List.mem_cons.mp hrow with heq | hmem
    · subst heq
      rw [List.length_take]
      have : c ≤ l.length := by
        rw [hlen]
        calc c = 1 * c := (one_mul c).symm
        _ ≤ (m + 1) * c := Nat.mul_le_mul_right c (by omega)
      omega
    · refine ih (l.drop c) c ?_ row hmem
      rw [List.length_drop, hlen]
      calc (m + 1) * c - c = m * c + c - c := by ring_nf
      _ = m * c := by omega

theorem chunkRows_mem (r : Nat) : ∀ (l : List Int) (c : Nat) (row : List Int),
    row ∈ chunkRows r l c → ∀ v ∈ row, v ∈ l := by
  induction r with
  | zero => intro l c row hrow; simp [chunkRows] at hrow
  | succ m ih =>
    intro l c row hrow v hv
    rw [chunkRows] at hrow
    rcases List.mem_cons.mp hrow with heq | hmem
    · subst heq
      exact List.mem_of_mem_take hv
    · exact List.mem_of_mem_drop (ih (l.drop c) c row hmem v hv)

/-- read_raw_field_eval: the success path of `read_raw_field` under
explicit hypotheses about the header state: the function slices
`[strt_offset:end_offset]` out of the re-read content and hands it to the
fromstring/byteswap/reshape tail. -/
theorem read_raw_field_eval (bo : ByteOrder) (f : TRMMFile) (field_num : Int)
    (vt ns : Bytes) (dl : List Int) (nfields : Int) (tag : Bytes) (w : Nat)
    (strt endo : Int)
    (hvt : dictGet f.hdr (strBytes "variable_type") = some vt)
    (hdl : parseDtypeList vt = .ok dl)
    (hns : dictGet f.hdr (strBytes "number_of_variables") = some ns)
    (hnf : pyInt ns = .ok nfields)
    (hrange : 0 ≤ field_num ∧ field_num < nfields)
    (hoff : fieldOffset dl f.rows f.cols field_num.toNat = .ok strt)
    (htag : listGetI (pySplitOnByte 44 vt) field_num = .ok tag)
    (hbranch : (w = 1 ∧ tag = strBytes "signed_integer1"
                  ∧ endo = strt + f.rows * f.cols)
             ∨ (w = 2 ∧ tag = strBytes "signed_integer2"
                  ∧ endo = strt + 2 * (f.rows * f.cols))) :
    read_raw_field bo f field_num
      = decodeReshapeBytes bo w (pySlice f.content strt endo) f.rows f.cols := by
  simp only [read_raw_field, dictGetE, hvt, hdl, hns, hnf, if_pos hrange, hoff, htag]
  rcases hbranch with ⟨hw, htg, hend⟩ | ⟨hw, htg, hend⟩
  · subst hw htg hend
    rw [if_pos rfl]
    rfl
  · subst hw htg hend
    rw [if_neg (by decide), if_pos rfl]
    rfl

theorem npReshape_ok (l : List Int) (rows cols : Int) (hr : 0 ≤ rows) (hc : 0 ≤ cols)
    (hlen : (l.length : Int) = rows * cols) :
    npReshape l rows cols = .ok (chunkRows rows.toNat l cols.toNat) := by
  rw [npReshape, if_pos ⟨hr, hc, hlen⟩]

theorem decodeReshapeBytes_ok (bo : ByteOrder) (w : Nat) (bs : Bytes)
    (rows cols : Int) (vals : List Int) (m : List (List Int))
    (hdec : decodeField bo w bs = .ok vals)
    (hresh : npReshape vals rows cols = .ok m) :
    decodeReshapeBytes bo w bs rows cols = .ok ⟨w, m⟩ := by
  simp only [decodeReshapeBytes, hdec, hresh]

/-- C3: for a valid field index on a well-formed header with enough data,
`read_raw_field` returns a 2-D array of shape `(rows, cols)` whose declared
element width matches the field's `variable_type` tag (1 byte for
`signed_integer1`, 2 for `signed_integer2`), filled row-major (row 0 first)
with the big-endian signed values of the sliced bytes, every element lying
in the signed range of the declared width. -/
theorem C3_raw_field_shape (bo : ByteOrder) (f : TRMMFile) (field_num : Int)
    (vt ns : Bytes) (dl : List Int) (nfields : Int) (tag : Bytes) (w : Nat)
    (strt endo : Int)
    (hvt : dictGet f.hdr (strBytes "variable_type") = some vt)
    (hdl : parseDtypeList vt = .ok dl)
    (hns : dictGet f.hdr (strBytes "number_of_variables") = some ns)
    (hnf : pyInt ns = .ok nfields)
    (hrange : 0 ≤ field_num ∧ field_num < nfields)
    (hoff : fieldOffset dl f.rows f.cols field_num.toNat = .ok strt)
    (htag : listGetI (pySplitOnByte 44 vt) field_num = .ok tag)
    (hbranch : (w = 1 ∧ tag = strBytes "signed_integer1"
                  ∧ endo = strt + f.rows * f.cols)
             ∨ (w = 2 ∧ tag = strBytes "signed_integer2"
                  ∧ endo = strt + 2 * (f.rows * f.cols)))
    (hrows : 0 ≤ f.rows) (hcols : 0 ≤ f.cols)
    (hstrt : 0 ≤ strt)
    (hlen : endo ≤ (f.content.length : Int))
    (hbytes : ∀ b ∈ f.content, b < 256) :
    ∃ rf, read_raw_field bo f field_num = .ok rf
      ∧ rf.width = w
      ∧ rf.data = chunkRows f.rows.toNat
          (beSigned w (pySlice f.content strt endo)) f.cols.toNat
      ∧ rf.data.length = f.rows.toNat
      ∧ (∀ row ∈ rf.data, row.length = f.cols.toNat)
      ∧ (∀ row ∈ rf.data, ∀ v ∈ row,
          -(2 ^ (8 * w - 1) : Int) ≤ v ∧ v < 2 ^ (8 * w - 1)) := by
  have heval := read_raw_field_eval bo f field_num vt ns dl nfields tag w strt endo
    hvt hdl hns hnf hrange hoff htag hbranch
  have hr' : ((f.rows.toNat : Int)) = f.rows := Int.toNat_of_nonneg hrows
  have hc' : ((f.cols.toNat : Int)) = f.cols := Int.toNat_of_nonneg hcols
  have hrc : 0 ≤ f.rows * f.cols := mul_nonneg hrows hcols
  have hse : strt ≤ endo := by
    rcases hbranch with ⟨_, _, hend⟩ | ⟨_, _, hend⟩ <;> subst hend <;> omega
  have hbsl : ((pySlice f.content strt endo).length : Int) = endo - strt :=
    pySlice_length f.content strt endo hstrt hse hlen
  have hbsb : ∀ b ∈ pySlice f.content strt endo, b < 256 :=
    fun b hbm => hbytes b (pySlice_subset f.content strt endo b hbm)
  rcases hbranch with ⟨hw, htg, hend⟩ | ⟨hw, htg, hend⟩
  · subst hw hend
    have hlen1 : ((pySlice f.content strt (strt + f.rows * f.cols)).length : Int)
        = f.rows * f.cols := by omega
    have hlenc : (((pySlice f.content strt (strt + f.rows * f.cols)).map toSigned8).length : Int)
        = f.rows * f.cols := by
      rw [List.length_map]
      exact hlen1
    have hdec := decodeField_one bo (pySlice f.content strt (strt + f.rows * f.cols))
    have hresh := npReshape_ok ((pySlice f.content strt (strt + f.rows * f.cols)).map toSigned8)
      f.rows f.cols hrows hcols hlenc
    refine ⟨⟨1, chunkRows f.rows.toNat
        ((pySlice f.content strt (strt + f.rows * f.cols)).map toSigned8) f.cols.toNat⟩,
      ?_, rfl, ?_, ?_, ?_, ?_⟩
    · rw [heval]
      exact decodeReshapeBytes_ok bo 1 _ f.rows f.cols _ _ hdec hresh
    · rfl
    · exact chunkRows_length f.rows.toNat _ f.cols.toNat
    · refine chunkRows_row_length f.rows.toNat _ f.cols.toNat ?_
      have : ((f.rows.toNat * f.cols.toNat : Nat) : Int) = f.rows * f.cols := by
        push_cast
        rw [hr', hc']
      omega
    · intro row hrow v hv
      have hvm := chunkRows_mem f.rows.toNat _ f.cols.toNat row hrow v hv
      obtain ⟨b, hbm, hbe⟩ := List.mem_map.mp hvm
      have := toSigned8_range b (hbsb b hbm)
      subst hbe
      constructor
      · calc -(2 ^ (8 * 1 - 1) : Int) = -128 := by norm_num
        _ ≤ toSigned8 b := this.1
      · calc toSigned8 b < 128 := this.2
        _ = (2 ^ (8 * 1 - 1) : Int) := by norm_num
  · subst hw hend
    have hlen2 : ((pySlice f.content strt (strt + 2 * (f.rows * f.cols))).length : Int)
        = 2 * (f.rows * f.cols) := by omega
    have heven : (pySlice f.content strt (strt + 2 * (f.rows * f.cols))).length % 2 = 0 := by
      omega
    have hdec := decodeField_two bo _ hbsb heven
    have hlenb : ((beSigned2 (pySlice f.content strt (strt + 2 * (f.rows * f.cols)))).length : Int)
        = f.rows * f.cols := by
      rw [beSigned2_length _ heven]
      omega
    have hresh := npReshape_ok (beSigned2 (pySlice f.content strt (strt + 2 * (f.rows * f.cols))))
      f.rows f.cols hrows hcols hlenb
    refine ⟨⟨2, chunkRows f.rows.toNat
        (beSigned2 (pySlice f.content strt (strt + 2 * (f.rows * f.cols)))) f.cols.toNat⟩,
      ?_, rfl, ?_, ?_, ?_, ?_⟩
    · rw [heval]
      exact decodeReshapeBytes_ok bo 2 _ f.rows f.cols _ _ hdec hresh
    · rfl
    · exact chunkRows_length f.rows.toNat _ f.cols.toNat
    · refine chunkRows_row_length f.rows.toNat _ f.cols.toNat ?_
      have : ((f.rows.toNat * f.cols.toNat : Nat) : Int) = f.rows * f.cols := by
        push_cast
        rw [hr', hc']
      omega
    · intro row hrow v hv
      have hvm := chunkRows_mem f.rows.toNat _ f.cols.toNat row hrow v hv
      have := beSigned2_mem_range _ hbsb v hvm
      constructor
      · calc -(2 ^ (8 * 2 - 1) : Int) = -32768 := by norm_num
        _ ≤ v := this.1
      · calc v < 32768 := this.2
        _ = (2 ^ (8 * 2 - 1) : Int) := by norm_num

theorem chunkPairs_odd : ∀ (bs : Bytes), bs.length % 2 = 1 → chunkPairs bs = none
  | [], h => by simp at h
  | [_], _ => rfl
  | a :: b :: rest, h => by
      rw [chunkPairs, chunkPairs_odd rest (by
        simp only [List.length_cons] at h
        omega)]
      rfl

theorem decodeField_bo_congr (w : Nat) (bs : Bytes) (hb : ∀ b ∈ bs, b < 256)
    (hw : w = 1 ∨ w = 2) (bo₁ bo₂ : ByteOrder) :
    decodeField bo₁ w bs = decodeField bo₂ w bs := by
  rcases hw with hw | hw
  · subst hw
    rw [decodeField_one, decodeField_one]
  · subst hw
    rcases Nat.mod_two_eq_zero_or_one bs.length with he | ho
    · rw [decodeField_two bo₁ bs hb he, decodeField_two bo₂ bs hb he]
    · have hcp := chunkPairs_odd bs ho
      cases bo₁ <;> cases bo₂ <;> simp only [decodeField, np_fromstring, hcp]

theorem decodeReshapeBytes_bo_congr (w : Nat) (bs : Bytes) (rows cols : Int)
    (hb : ∀ b ∈ bs, b < 256) (hw : w = 1 ∨ w = 2) (bo₁ bo₂ : ByteOrder) :
    decodeReshapeBytes bo₁ w bs rows cols = decodeReshapeBytes bo₂ w bs rows cols := by
  unfold decodeReshapeBytes
  rw [decodeField_bo_congr w bs hb hw bo₁ bo₂]

/-- C4: decoding is host-independent — for identical bytes and header, runs
on little- and big-endian hosts return identical raw fields (the code
byteswaps exactly when the host is little-endian, so both reach the
big-endian interpretation) — and on the success path the fromstring /
conditional-byteswap pipeline computes exactly the big-endian signed
interpretation `beSigned` of the sliced bytes. -/
theorem C4_endianness (f : TRMMFile) (field_num : Int)
    (hbytes : ∀ b ∈ f.content, b < 256) :
    (∀ bo₁ bo₂, read_raw_field bo₁ f field_num = read_raw_field bo₂ f field_num)
    ∧ (∀ (bo : ByteOrder) (w : Nat) (bs : Bytes), (∀ b ∈ bs, b < 256) →
        (w = 1 ∨ (w = 2 ∧ bs.length % 2 = 0)) →
        decodeField bo w bs = .ok (beSigned w bs)) := by
  constructor
  · intro bo₁ bo₂
    simp only [read_raw_field]
    cases hvt : dictGetE f.hdr (strBytes "variable_type") with
    | error e => rfl
    | ok vt =>
      dsimp only
      cases hdl : parseDtypeList vt with
      | error e => rfl
      | ok dl =>
        dsimp only
        cases hns : dictGetE f.hdr (strBytes "number_of_variables") with
        | error e => rfl
        | ok ns =>
          dsimp only
          cases hnf : pyInt ns with
          | error e => rfl
          | ok nfields =>
            dsimp only
            by_cases hrange : 0 ≤ field_num ∧ field_num < nfields
            · rw [if_pos hrange]
              cases hoff : fieldOffset dl f.rows f.cols field_num.toNat with
              | error e => rfl
              | ok strt =>
                dsimp only
                cases htag : listGetI (pySplitOnByte 44 vt) field_num with
                | error e => rfl
                | ok tag =>
                  dsimp only
                  by_cases h1 : tag = strBytes "signed_integer1"
                  · rw [if_pos h1, if_pos h1]
                    exact decodeReshapeBytes_bo_congr 1 _ f.rows f.cols
                      (fun b hbm => hbytes b (pySlice_subset _ _ _ b hbm))
                      (Or.inl rfl) bo₁ bo₂
                  · rw [if_neg h1, if_neg h1]
                    by_cases h2 : tag = strBytes "signed_integer2"
                    · rw [if_pos h2, if_pos h2]
                      exact decodeReshapeBytes_bo_congr 2 _ f.rows f.cols
                        (fun b hbm => hbytes b (pySlice_subset _ _ _ b hbm))
                        (Or.inr rfl) bo₁ bo₂
                    · rw [if_neg h2, if_neg h2]
            · rw [if_neg hrange]
  · intro bo w bs hb hw
    rcases hw with hw | ⟨hw, he⟩
    · subst hw
      rw [decodeField_one]
      rfl
    · subst hw
      rw [decodeField_two bo bs hb he]
      rfl

/-! ## Concrete synthetic files used by witnesses and counterexamples -/

/-- hdrW is a synthetic two-field header: a 1x2 grid, field 0
`signed_integer2` with scale 10, field 1 `signed_integer1` with scale 1,
flag value -9999. -/
def hdrW : Bytes := strBytes "algorithm_ID=3B42RT number_of_latitude_bins=1 number_of_longitude_bins=2 number_of_variables=2 variable_type=signed_integer2,signed_integer1 variable_scale=10,1 flag_value=-9999"

/-- payloadW: field 0 holds the int16 big-endian values 100 and -9999
(bytes 00 64 d8 f1), field 1 the int8 values 1 and 2. -/
def payloadW : Bytes := [0, 100, 216, 241, 1, 2]

/-- contentW is the full synthetic file for `hdrW`. -/
def contentW : Bytes := mkContent hdrW payloadW

/-- dictW is the parsed header dictionary of `contentW`. -/
def dictW : HDict :=
  [(strBytes "algorithm_ID", strBytes "3B42RT"),
   (strBytes "number_of_latitude_bins", strBytes "1"),
   (strBytes "number_of_longitude_bins", strBytes "2"),
   (strBytes "number_of_variables", strBytes "2"),
   (strBytes "variable_type", strBytes "signed_integer2,signed_integer1"),
   (strBytes "variable_scale", strBytes "10,1"),
   (strBytes "flag_value", strBytes "-9999")]

/-- fileW is the object state after constructing a reader on `contentW`. -/
def fileW : TRMMFile := ⟨strBytes "wbin", contentW, dictW, 1, 2⟩

theorem hdrW_short : hdrW.length ≤ 2880 := by decide

theorem read_header_contentW : read_header contentW = .ok dictW := by
  rw [contentW, read_header_mkContent hdrW payloadW hdrW_short]
  decide

theorem TRMM_init_W : TRMM_init (strBytes "wbin") (some contentW) = .ok fileW := by
  simp only [TRMM_init, read_binary, read_header_contentW]
  rfl

theorem contentW_length : contentW.length = 2886 := by
  rw [contentW, mkContent_length hdrW payloadW hdrW_short]
  decide

theorem contentW_bytes : ∀ b ∈ contentW, b < 256 := by
  intro b hb
  rw [contentW, mkContent, padTo2880] at hb
  rcases List.mem_append.mp hb with h1 | h2
  · rcases List.mem_append.mp h1 with h3 | h4
    · exact (by decide : ∀ x ∈ hdrW, x < 256) b h3
    · rw [List.eq_of_mem_replicate h4]
      decide
  · exact (by decide : ∀ x ∈ payloadW, x < 256) b h2

theorem sliceW0 : pySlice contentW 2880 2884 = [0, 100, 216, 241] := by
  have h := pySlice_mkContent hdrW payloadW hdrW_short 0 4
    (by decide) (by decide) (by decide)
  norm_num at h
  rw [contentW, h]
  decide

theorem sliceW1 : pySlice contentW 2884 2886 = [1, 2] := by
  have h := pySlice_mkContent hdrW payloadW hdrW_short 4 6
    (by decide) (by decide) (by decide)
  norm_num at h
  rw [contentW, h]
  decide

theorem read_raw_W0 : read_raw_field .little fileW 0 = .ok ⟨2, [[100, -9999]]⟩ := by
  rw [read_raw_field_eval .little fileW 0
    (strBytes "signed_integer2,signed_integer1") (strBytes "2") [2, 1] 2
    (strBytes "signed_integer2") 2 2880 2884
    (by decide) (by decide) (by decide) (by decide) (by decide) (by decide) (by decide)
    (Or.inr ⟨rfl, rfl, by decide⟩)]
  rw [show fileW.content = contentW from rfl, sliceW0]
  decide

theorem read_raw_W1 : read_raw_field .little fileW 1 = .ok ⟨1, [[1, 2]]⟩ := by
  rw [read_raw_field_eval .little fileW 1
    (strBytes "signed_integer2,signed_integer1") (strBytes "2") [2, 1] 2
    (strBytes "signed_integer1") 1 2884 2886
    (by decide) (by decide) (by decide) (by decide) (by decide) (by decide) (by decide)
    (Or.inl ⟨rfl, rfl, by decide⟩)]
  rw [show fileW.content = contentW from rfl, sliceW1]
  decide

/-- C3 witness: on the synthetic file `contentW`, field 0 is declared
`signed_integer2` and decodes to the 1x2 int16 array [[100, -9999]]. -/
theorem C3_raw_field_shape_witness :
    dictGet fileW.hdr (strBytes "variable_type")
        = some (strBytes "signed_integer2,signed_integer1")
    ∧ (∃ rf, read_raw_field .little fileW 0 = .ok rf
        ∧ rf.width = 2
        ∧ rf.data = chunkRows fileW.rows.toNat
            (beSigned 2 (pySlice fileW.content 2880 2884)) fileW.cols.toNat
        ∧ rf.data.length = fileW.rows.toNat
        ∧ (∀ row ∈ rf.data, row.length = fileW.cols.toNat)
        ∧ (∀ row ∈ rf.data, ∀ v ∈ row,
            -(2 ^ (8 * 2 - 1) : Int) ≤ v ∧ v < 2 ^ (8 * 2 - 1)))
    ∧ read_raw_field .little fileW 0 = .ok ⟨2, [[100, -9999]]⟩ := by
  have hlen : (2884 : Int) ≤ (fileW.content.length : Int) := by
    rw [show fileW.content = contentW from rfl, contentW_length]
    decide
  refine ⟨by decide, ?_, read_raw_W0⟩
  exact C3_raw_field_shape .little fileW 0
    (strBytes "signed_integer2,signed_integer1") (strBytes "2") [2, 1] 2
    (strBytes "signed_integer2") 2 2880 2884
    (by decide) (by decide) (by decide) (by decide) (by decide) (by decide) (by decide)
    (Or.inr ⟨rfl, rfl, by decide⟩) (by decide) (by decide) (by decide) hlen
    (fun b hb => contentW_bytes b hb)

/-- C4 witness: on `contentW`, a little-endian and a big-endian host
decode field 0 identically, and the decode of the sliced bytes
[0, 100, 216, 241] is their big-endian signed interpretation
[100, -9999]. -/
theorem C4_endianness_witness :
    read_raw_field .little fileW 0 = read_raw_field .big fileW 0
    ∧ decodeField .little 2 [0, 100, 216, 241] = .ok (beSigned 2 [0, 100, 216, 241])
    ∧ beSigned 2 [0, 100, 216, 241] = [100, -9999] := by
  have h := C4_endianness fileW 0 (fun b hb => contentW_bytes b hb)
  exact ⟨h.1 .little .big,
    h.2 .little 2 [0, 100, 216, 241] (by decide) (Or.inr ⟨rfl, by decide⟩),
    by decide⟩

/-! ## Claim C2: scaling and masking (float path) -/

theorem map_getD_nil {α β : Type} (g : α → β) (m : List (List α)) (i : Nat) :
    (m.map (List.map g)).getD i [] = (m.getD i []).map g := by
  rw [List.getD_eq_getElem?_getD, List.getD_eq_getElem?_getD, List.getElem?_map]
  cases h : m[i]? <;> simp

theorem map_getD_elem {α β : Type} (g : α → β) (row : List α) (j : Nat)
    (d : α) (hj : j < row.length) :
    (row.map g).getD j (g d) = g (row.getD j d) := by
  rw [List.getD_eq_getElem?_getD, List.getD_eq_getElem?_getD, List.getElem?_map,
    List.getElem?_eq_getElem hj]
  simp

/-- C2: the scaled-and-masked field masks exactly the elements equal to the
parsed integer `flag_value`; every other element equals the raw value
divided by the field's `variable_scale` entry parsed as a float (exact
rational model of the float arithmetic); values adjacent to the flag
(`flag - 1`, `flag + 1`) are never masked. -/
theorem C2_scale_mask (bo : ByteOrder) (f : TRMMFile) (field_num : Int)
    (vs entry : Bytes) (scale : ℚ) (rf : RawField) (fs : Bytes) (flag : Int)
    (hvs : dictGet f.hdr (strBytes "variable_scale") = some vs)
    (hentry : listGetI (pySplitOnByte 44 vs) field_num = .ok entry)
    (hscale : pyFloat entry = .ok scale)
    (hs0 : scale ≠ 0)
    (hraw : read_raw_field bo f field_num = .ok rf)
    (hfs : dictGet f.hdr (strBytes "flag_value") = some fs)
    (hflag : pyInt fs = .ok flag) :
    read_scaled_masked_field bo f field_num .float32
        = .ok (scaleMaskField flag scale .float32 rf.data)
    ∧ (∀ i j, j < (rf.data.getD i []).length →
        ((scaleMaskField flag scale .float32 rf.data).getD i []).getD j
            (scaleMaskElem flag scale .float32 0)
          = scaleMaskElem flag scale .float32 ((rf.data.getD i []).getD j 0))
    ∧ (∀ v : Int, ((scaleMaskElem flag scale .float32 v).mask = true) ↔ v = flag)
    ∧ (∀ v : Int, v ≠ flag →
        (scaleMaskElem flag scale .float32 v).val = (v : ℚ) / scale)
    ∧ (scaleMaskElem flag scale .float32 (flag - 1)).mask = false
    ∧ (scaleMaskElem flag scale .float32 (flag + 1)).mask = false := by
  refine ⟨?_, ?_, ?_, ?_, ?_, ?_⟩
  · simp only [read_scaled_masked_field, dictGetE, hvs, hentry, hscale, hraw, hfs, hflag]
  · intro i j hj
    rw [scaleMaskField, map_getD_nil, map_getD_elem _ _ _ _ hj]
  · intro v
    rw [scaleMaskElem]
    by_cases hv : v = flag
    · rw [if_pos hv]
      simpa using hv
    · rw [if_neg hv]
      simpa using hv
  · intro v hv
    rw [scaleMaskElem, if_neg hv]
    rfl
  · rw [scaleMaskElem, if_neg (by omega)]
  · rw [scaleMaskElem, if_neg (by omega)]

/-- C2 witness: on `contentW` field 0 (scale 10, flag -9999), the raw
values [[100, -9999]] become [[10, masked]]: 100 maps to the unmasked
value 10, the flag value is masked, and the two neighbours of the flag
would not be masked. -/
theorem C2_scale_mask_witness :
    pyFloat (strBytes "10") = .ok 10
    ∧ read_scaled_masked_field .little fileW 0 .float32
        = .ok [[⟨false, 10⟩, ⟨true, -9999⟩]]
    ∧ (((scaleMaskElem (-9999) 10 .float32 100).mask = true) ↔ (100 : Int) = -9999)
    ∧ (scaleMaskElem (-9999) 10 .float32 100).val = (100 : ℚ) / 10
    ∧ (scaleMaskElem (-9999) 10 .float32 (-9999 - 1)).mask = false
    ∧ (scaleMaskElem (-9999) 10 .float32 (-9999 + 1)).mask = false := by
  have h := C2_scale_mask .little fileW 0 (strBytes "10,1") (strBytes "10") 10
    ⟨2, [[100, -9999]]⟩ (strBytes "-9999") (-9999)
    (by decide) (by decide) (by decide) (by decide) read_raw_W0 (by decide) (by decide)
  have hsm : scaleMaskField (-9999) 10 .float32
      (RawField.mk 2 [[100, -9999]]).data = [[⟨false, 10⟩, ⟨true, -9999⟩]] := by
    simp [scaleMaskField, scaleMaskElem, castK, divK]
    norm_num
  exact ⟨by decide, h.1.trans (by rw [hsm]), h.2.2.1 100, h.2.2.2.1 100 (by decide),
    h.2.2.2.2.1, h.2.2.2.2.2⟩

/-! ## Claim C5: the integer output kind -/

theorem wrap8_eq_self (v : Int) (h1 : -128 ≤ v) (h2 : v < 128) : wrap8 v = v := by
  unfold wrap8
  omega

theorem ratTrunc_intCast (v : Int) : ratTrunc ((v : Int) : ℚ) = v := by
  unfold ratTrunc
  rw [Rat.num_intCast, Rat.den_intCast]
  by_cases h : 0 ≤ v
  · rw [if_pos h]
    simp [Int.toNat_of_nonneg h]
  · rw [if_neg h]
    simp only [Nat.div_one]
    omega

/-- hdrP is a synthetic three-field header of `signed_integer1` fields on a
1x1 grid; the pixel-count-style field 2 carries scale entry 10 (not 1), to
exercise the integer output kind against a non-trivial scale. -/
def hdrP : Bytes := strBytes "algorithm_ID=3B40RT number_of_latitude_bins=1 number_of_longitude_bins=1 number_of_variables=3 variable_type=signed_integer1,signed_integer1,signed_integer1 variable_scale=1,1,10 flag_value=-31999"

/-- payloadP: the three int8 fields hold 7, 8 and 100. -/
def payloadP : Bytes := [7, 8, 100]

/-- contentP is the full synthetic file for `hdrP`. -/
def contentP : Bytes := mkContent hdrP payloadP

/-- dictP is the parsed header dictionary of `contentP`. -/
def dictP : HDict :=
  [(strBytes "algorithm_ID", strBytes "3B40RT"),
   (strBytes "number_of_latitude_bins", strBytes "1"),
   (strBytes "number_of_longitude_bins", strBytes "1"),
   (strBytes "number_of_variables", strBytes "3"),
   (strBytes "variable_type", strBytes "signed_integer1,signed_integer1,signed_integer1"),
   (strBytes "variable_scale", strBytes "1,1,10"),
   (strBytes "flag_value", strBytes "-31999")]

/-- fileP is the object state after constructing a reader on `contentP`. -/
def fileP : TRMMFile := ⟨strBytes "pbin", contentP, dictP, 1, 1⟩

theorem hdrP_short : hdrP.length ≤ 2880 := by decide

theorem sliceP1 : pySlice contentP 2881 2882 = [8] := by
  have h := pySlice_mkContent hdrP payloadP hdrP_short 1 2
    (by decide) (by decide) (by decide)
  norm_num at h
  rw [contentP, h]
  decide

theorem sliceP2 : pySlice contentP 2882 2883 = [100] := by
  have h := pySlice_mkContent hdrP payloadP hdrP_short 2 3
    (by decide) (by decide) (by decide)
  norm_num at h
  rw [contentP, h]
  decide

theorem read_raw_P1 : read_raw_field .little fileP 1 = .ok ⟨1, [[8]]⟩ := by
  rw [read_raw_field_eval .little fileP 1
    (strBytes "signed_integer1,signed_integer1,signed_integer1") (strBytes "3")
    [1, 1, 1] 3 (strBytes "signed_integer1") 1 2881 2882
    (by decide) (by decide) (by decide) (by decide) (by decide) (by decide) (by decide)
    (Or.inl ⟨rfl, rfl, by decide⟩)]
  rw [show fileP.content = contentP from rfl, sliceP1]
  decide

theorem read_raw_P2 : read_raw_field .little fileP 2 = .ok ⟨1, [[100]]⟩ := by
  rw [read_raw_field_eval .little fileP 2
    (strBytes "signed_integer1,signed_integer1,signed_integer1") (strBytes "3")
    [1, 1, 1] 3 (strBytes "signed_integer1") 1 2882 2883
    (by decide) (by decide) (by decide) (by decide) (by decide) (by decide) (by decide)
    (Or.inl ⟨rfl, rfl, by decide⟩)]
  rw [show fileP.content = contentP from rfl, sliceP2]
  decide

/-- C5 (amended): with the integer output kind (`dtype=np.int8`, used by
the pixel-count and source-id accessors) the flag mask is applied exactly
as for floats, but the scale factor is NOT ignored: the in-place
`field /= scale_factor` divides each non-flag element too, truncating the
quotient toward zero into the integer dtype; the raw value comes through
unchanged precisely in the cases where that division is the identity — in
particular whenever the field's `variable_scale` entry is 1, which is how
the shipped pixel-count fields are configured. -/
theorem C5_integer_output (bo : ByteOrder) (f : TRMMFile) (field_num : Int)
    (vs entry : Bytes) (scale : ℚ) (rf : RawField) (fs : Bytes) (flag : Int)
    (hvs : dictGet f.hdr (strBytes "variable_scale") = some vs)
    (hentry : listGetI (pySplitOnByte 44 vs) field_num = .ok entry)
    (hscale : pyFloat entry = .ok scale)
    (hraw : read_raw_field bo f field_num = .ok rf)
    (hfs : dictGet f.hdr (strBytes "flag_value") = some fs)
    (hflag : pyInt fs = .ok flag) :
    read_scaled_masked_field bo f field_num .int8
        = .ok (scaleMaskField flag scale .int8 rf.data)
    ∧ (∀ v : Int, ((scaleMaskElem flag scale .int8 v).mask = true) ↔ v = flag)
    ∧ (∀ v : Int, v ≠ flag →
        (scaleMaskElem flag scale .int8 v).val
          = ((ratTrunc (((wrap8 v : Int) : ℚ) / scale) : Int) : ℚ))
    ∧ (scale = 1 → ∀ v : Int, v ≠ flag → -128 ≤ v → v < 128 →
        (scaleMaskElem flag scale .int8 v).val = (v : ℚ)) := by
  refine ⟨?_, ?_, ?_, ?_⟩
  · simp only [read_scaled_masked_field, dictGetE, hvs, hentry, hscale, hraw, hfs, hflag]
  · intro v
    rw [scaleMaskElem]
    by_cases hv : v = flag
    · rw [if_pos hv]
      simpa using hv
    · rw [if_neg hv]
      simpa using hv
  · intro v hv
    rw [scaleMaskElem, if_neg hv]
    rfl
  · intro hs1 v hv h1 h2
    rw [scaleMaskElem, if_neg hv, hs1]
    show ((ratTrunc (((wrap8 v : Int) : ℚ) / 1) : Int) : ℚ) = (v : ℚ)
    rw [div_one, ratTrunc_intCast, wrap8_eq_self v h1 h2]

/-- C5 counterexample: the pixel-count accessor `total_pixels`
(`_read_scaled_masked_field(2, dtype=np.int8)`) on a file whose field-2
scale entry is 10 returns 10 for the raw value 100 — the scale factor is
applied (with truncation), not ignored, so the output does not equal the
raw integer value. -/
theorem C5_counterexample :
    total_pixels .little fileP = .ok [[⟨false, 10⟩]]
    ∧ (10 : ℚ) ≠ (100 : ℚ) := by
  constructor
  · rw [total_pixels]
    have h1 : dictGetE fileP.hdr (strBytes "variable_scale")
        = .ok (strBytes "1,1,10") := by decide
    have h2 : listGetI (pySplitOnByte 44 (strBytes "1,1,10")) 2
        = .ok (strBytes "10") := by decide
    have h3 : pyFloat (strBytes "10") = .ok 10 := by decide
    have h4 : dictGetE fileP.hdr (strBytes "flag_value")
        = .ok (strBytes "-31999") := by decide
    have h5 : pyInt (strBytes "-31999") = .ok (-31999) := by decide
    simp only [read_scaled_masked_field, h1, h2, h3, read_raw_P2, h4, h5]
    have hw : wrap8 100 = 100 := by decide
    have hdiv : ((100 : Int) : ℚ) / 10 = ((10 : Int) : ℚ) := by norm_num
    have htr : ratTrunc ((10 : Int) : ℚ) = 10 := ratTrunc_intCast 10
    simp only [scaleMaskField, scaleMaskElem, castK, divK, hw, List.map_cons,
      List.map_nil, if_neg (by decide : ¬ (100 : Int) = -31999), hdiv, htr]
    norm_num
  · norm_num

/-- C5 witness: on field 1 of `contentP` (scale entry 1, raw value 8), the
integer output equals the raw value unchanged. -/
theorem C5_integer_output_witness :
    pyFloat (strBytes "1") = .ok 1
    ∧ read_scaled_masked_field .little fileP 1 .int8
        = .ok (scaleMaskField (-31999) 1 .int8 [[8]])
    ∧ (scaleMaskElem (-31999) 1 .int8 8).val = ((8 : Int) : ℚ) := by
  have h := C5_integer_output .little fileP 1 (strBytes "1,1,10") (strBytes "1") 1
    ⟨1, [[8]]⟩ (strBytes "-31999") (-31999)
    (by decide) (by decide) (by decide) read_raw_P1 (by decide) (by decide)
  exact ⟨by decide, h.1, h.2.2.2 rfl 8 (by decide) (by decide) (by decide)⟩

/-! ## Claim C8: unsupported variable_type tags -/

/-- hdr8 declares field 0 with the unsupported tag `signed_integer4` and
field 1 with the supported `signed_integer1`, on a 1x1 grid. -/
def hdr8 : Bytes := strBytes "algorithm_ID=3B40RT number_of_latitude_bins=1 number_of_longitude_bins=1 number_of_variables=2 variable_type=signed_integer4,signed_integer1 variable_scale=1,1 flag_value=-1"

/-- payload8: four bytes for the 4-byte-wide field 0, then field 1's
single byte 5. -/
def payload8 : Bytes := [0, 0, 0, 0, 5]

/-- content8 is the full synthetic file for `hdr8`. -/
def content8 : Bytes := mkContent hdr8 payload8

/-- dict8 is the parsed header dictionary of `content8`. -/
def dict8 : HDict :=
  [(strBytes "algorithm_ID", strBytes "3B40RT"),
   (strBytes "number_of_latitude_bins", strBytes "1"),
   (strBytes "number_of_longitude_bins", strBytes "1"),
   (strBytes "number_of_variables", strBytes "2"),
   (strBytes "variable_type", strBytes "signed_integer4,signed_integer1"),
   (strBytes "variable_scale", strBytes "1,1"),
   (strBytes "flag_value", strBytes "-1")]

/-- file8 is the object state after constructing a reader on `content8`. -/
def file8 : TRMMFile := ⟨strBytes "f8bin", content8, dict8, 1, 1⟩

theorem hdr8_short : hdr8.length ≤ 2880 := by decide

theorem slice8_1 : pySlice content8 2884 2885 = [5] := by
  have h := pySlice_mkContent hdr8 payload8 hdr8_short 4 5
    (by decide) (by decide) (by decide)
  norm_num at h
  rw [content8, h]
  decide

theorem read_raw_8_1 : read_raw_field .little file8 1 = .ok ⟨1, [[5]]⟩ := by
  rw [read_raw_field_eval .little file8 1
    (strBytes "signed_integer4,signed_integer1") (strBytes "2")
    [4, 1] 2 (strBytes "signed_integer1") 1 2884 2885
    (by decide) (by decide) (by decide) (by decide) (by decide) (by decide) (by decide)
    (Or.inl ⟨rfl, rfl, by decide⟩)]
  rw [show file8.content = content8 from rfl, slice8_1]
  decide

/-- C8 (amended): only the REQUESTED field's `variable_type` tag is
validated against the two supported widths: a request for a field whose
own tag is neither `signed_integer1` nor `signed_integer2` raises the
badly-formed-header IOError, but a field with an unsupported digit-suffixed
tag (such as `signed_integer4`) does not make requests for LATER fields
fail — its trailing digit is parsed unvalidated into the width list and
enters the later field's offset (here width 4 places field 1 at 2884). -/
theorem C8_malformed_tag (bo : ByteOrder) (f : TRMMFile) (field_num : Int)
    (vt ns : Bytes) (dl : List Int) (nfields strt : Int) (tag : Bytes)
    (hvt : dictGet f.hdr (strBytes "variable_type") = some vt)
    (hdl : parseDtypeList vt = .ok dl)
    (hns : dictGet f.hdr (strBytes "number_of_variables") = some ns)
    (hnf : pyInt ns = .ok nfields)
    (hrange : 0 ≤ field_num ∧ field_num < nfields)
    (hoff : fieldOffset dl f.rows f.cols field_num.toNat = .ok strt)
    (htag : listGetI (pySplitOnByte 44 vt) field_num = .ok tag)
    (h1 : tag ≠ strBytes "signed_integer1")
    (h2 : tag ≠ strBytes "signed_integer2") :
    read_raw_field bo f field_num = .error (.badHeader f.filename)
    ∧ parseDtypeList (strBytes "signed_integer4,signed_integer1") = .ok [4, 1]
    ∧ fieldOffset [4, 1] 1 1 1 = .ok 2884 := by
  refine ⟨?_, by decide, by decide⟩
  simp only [read_raw_field, dictGetE, hvt, hdl, hns, hnf, if_pos hrange, hoff, htag,
    if_neg h1, if_neg h2]

/-- C8 counterexample: on `content8`, field 0's tag is the unsupported
`signed_integer4`, yet requesting field 1 — whose offset computation needs
field 0's byte width — SUCCEEDS, returning data computed from the
unvalidated width, where the claim demands a malformed-header failure. -/
theorem C8_counterexample :
    dictGet file8.hdr (strBytes "variable_type")
      = some (strBytes "signed_integer4,signed_integer1")
    ∧ read_raw_field .little file8 1 = .ok ⟨1, [[5]]⟩ :=
  ⟨by decide, read_raw_8_1⟩

/-- C8 witness: requesting field 0 of `content8` itself — the field whose
tag is `signed_integer4` — raises the badly-formed-header IOError. -/
theorem C8_malformed_tag_witness :
    listGetI (pySplitOnByte 44 (strBytes "signed_integer4,signed_integer1")) 0
      = .ok (strBytes "signed_integer4")
    ∧ read_raw_field .little file8 0 = .error (.badHeader (strBytes "f8bin")) := by
  refine ⟨by decide, ?_⟩
  exact (C8_malformed_tag .little file8 0
    (strBytes "signed_integer4,signed_integer1") (strBytes "2") [4, 1] 2 2880
    (strBytes "signed_integer4")
    (by decide) (by decide) (by decide) (by decide) (by decide) (by decide) (by decide)
    (by decide) (by decide)).1

/-! ## Claim C10: eager construction -/

/-- C10: every variant constructor reads the whole file and parses the
header immediately: a missing/unreadable path raises IOError; a header
token without `=` makes construction raise; a missing or non-integer
`number_of_latitude_bins` / `number_of_longitude_bins` makes construction
raise; and a successfully constructed object carries rows and cols parsed
from those header entries.  The variant constructors go through the base
constructor, so a variant object that exists implies the base construction
succeeded on the same state. -/
theorem C10_init (filename : Bytes) (disk : Option Bytes) :
    (disk = none → TRMM_init filename disk = .error (.ioErrorMissing filename))
    ∧ (∀ content, disk = some content →
        (∃ t ∈ pySplitWs (content.take 2880), 61 ∉ t) →
        ∃ e, TRMM_init filename disk = .error e)
    ∧ (∀ content hdr, disk = some content → read_header content = .ok hdr →
        dictGet hdr (strBytes "number_of_latitude_bins") = none →
        TRMM_init filename disk
          = .error (.keyError (strBytes "number_of_latitude_bins")))
    ∧ (∀ content hdr s, disk = some content → read_header content = .ok hdr →
        dictGet hdr (strBytes "number_of_latitude_bins") = some s →
        pyIntCore s = none →
        ∃ e, TRMM_init filename disk = .error e)
    ∧ (∀ content hdr s rows, disk = some content → read_header content = .ok hdr →
        dictGet hdr (strBytes "number_of_latitude_bins") = some s →
        pyInt s = .ok rows →
        dictGet hdr (strBytes "number_of_longitude_bins") = none →
        TRMM_init filename disk
          = .error (.keyError (strBytes "number_of_longitude_bins")))
    ∧ (∀ content hdr s rows s2, disk = some content → read_header content = .ok hdr →
        dictGet hdr (strBytes "number_of_latitude_bins") = some s →
        pyInt s = .ok rows →
        dictGet hdr (strBytes "number_of_longitude_bins") = some s2 →
        pyIntCore s2 = none →
        ∃ e, TRMM_init filename disk = .error e)
    ∧ (∀ f, TRMM_init filename disk = .ok f →
        ∃ content hdr rs cs, disk = some content ∧ f.content = content
          ∧ f.filename = filename
          ∧ read_header content = .ok hdr ∧ f.hdr = hdr
          ∧ dictGet hdr (strBytes "number_of_latitude_bins") = some rs
          ∧ pyInt rs = .ok f.rows
          ∧ dictGet hdr (strBytes "number_of_longitude_bins") = some cs
          ∧ pyInt cs = .ok f.cols)
    ∧ (∀ expected f w, variantInit expected filename disk = .ok (f, w) →
        TRMM_init filename disk = .ok f) := by
  refine ⟨?_, ?_, ?_, ?_, ?_, ?_, ?_, ?_⟩
  · intro h
    subst h
    rfl
  · rintro content rfl ⟨t, ht, hno⟩
    obtain ⟨e, he⟩ := parseTokens_error_of_bad (pySplitWs (content.take 2880))
      ⟨t, ht, by rw [pySplitOnByte_no_sep 61 t hno]; simp⟩
    refine ⟨e, ?_⟩
    have hrh : read_header content = .error e := he
    simp only [TRMM_init, read_binary, hrh]
  · rintro content hdr rfl hrh hnone
    simp only [TRMM_init, read_binary, hrh, dictGetE, hnone]
  · rintro content hdr s rfl hrh hsome hpc
    have hpi : pyInt s = .error (.valueError (strBytes "invalid literal for int(): " ++ s)) := by
      rw [pyInt, hpc]
    refine ⟨.valueError (strBytes "invalid literal for int(): " ++ s), ?_⟩
    simp only [TRMM_init, read_binary, hrh, dictGetE, hsome, hpi]
  · rintro content hdr s rows rfl hrh hsome hpi hnone2
    simp only [TRMM_init, read_binary, hrh, dictGetE, hsome, hpi, hnone2]
  · rintro content hdr s rows s2 rfl hrh hsome hpi hsome2 hpc2
    have hpi2 : pyInt s2
        = .error (.valueError (strBytes "invalid literal for int(): " ++ s2)) := by
      rw [pyInt, hpc2]
    refine ⟨.valueError (strBytes "invalid literal for int(): " ++ s2), ?_⟩
    simp only [TRMM_init, read_binary, hrh, dictGetE, hsome, hpi, hsome2, hpi2]
  · intro f h
    obtain ⟨content, rfl⟩ : ∃ c, disk = some c := by
      cases disk with
      | none => simp [TRMM_init, read_binary] at h
      | some c => exact ⟨c, rfl⟩
    unfold TRMM_init read_binary at h
    dsimp only at h
    cases hrh : read_header content with
    | error e =>
      rw [hrh] at h
      exact absurd h (by simp)
    | ok hdr =>
      rw [hrh] at h
      dsimp only at h
      unfold dictGetE at h
      cases hlat : dictGet hdr (strBytes "number_of_latitude_bins") with
      | none =>
        rw [hlat] at h
        exact absurd h (by simp)
      | some s =>
        rw [hlat] at h
        dsimp only at h
        cases hpi : pyInt s with
        | error e =>
          rw [hpi] at h
          exact absurd h (by simp)
        | ok rows =>
          rw [hpi] at h
          dsimp only at h
          cases hlon : dictGet hdr (strBytes "number_of_longitude_bins") with
          | none =>
            rw [hlon] at h
            exact absurd h (by simp)
          | some s2 =>
            rw [hlon] at h
            dsimp only at h
            cases hpi2 : pyInt s2 with
            | error e =>
              rw [hpi2] at h
              exact absurd h (by simp)
            | ok cols =>
              rw [hpi2] at h
              dsimp only at h
              have hf : f = ⟨filename, content, hdr, rows, cols⟩ := by
                cases h
                rfl
              subst hf
              exact ⟨content, hdr, s, s2, rfl, rfl, rfl, hrh, rfl, hlat, hpi, hlon, hpi2⟩
  · intro expected f w h
    unfold variantInit at h
    cases hti : TRMM_init filename disk with
    | error e =>
      rw [hti] at h
      exact absurd h (by simp)
    | ok f2 =>
      rw [hti] at h
      dsimp only at h
      unfold dictGetE at h
      cases halg : dictGet f2.hdr (strBytes "algorithm_ID") with
      | none =>
        rw [halg] at h
        exact absurd h (by simp)
      | some a =>
        rw [halg] at h
        dsimp only at h
        by_cases hae : a = expected
        · rw [if_pos hae] at h
          have h2 : f2 = f := congrArg Prod.fst (Except.ok.inj h)
          rw [← h2]
        · rw [if_neg hae] at h
          have h2 : f2 = f := congrArg Prod.fst (Except.ok.inj h)
          rw [← h2]

/-- C10 witness: a missing path raises IOError; a header token without `=`
makes the constructor raise; on the well-formed `contentW` construction
succeeds, and the object's rows and cols are the parsed header entries. -/
theorem C10_init_witness :
    TRMM_init (strBytes "x") none = .error (.ioErrorMissing (strBytes "x"))
    ∧ (∃ e, TRMM_init (strBytes "y") (some (strBytes "abc")) = .error e)
    ∧ (∃ content hdr rs cs, some contentW = some content ∧ fileW.content = content
        ∧ fileW.filename = strBytes "wbin"
        ∧ read_header content = .ok hdr ∧ fileW.hdr = hdr
        ∧ dictGet hdr (strBytes "number_of_latitude_bins") = some rs
        ∧ pyInt rs = .ok fileW.rows
        ∧ dictGet hdr (strBytes "number_of_longitude_bins") = some cs
        ∧ pyInt cs = .ok fileW.cols) := by
  refine ⟨(C10_init (strBytes "x") none).1 rfl, ?_, ?_⟩
  · exact (C10_init (strBytes "y") (some (strBytes "abc"))).2.1 (strBytes "abc") rfl
      ⟨strBytes "abc", by decide, by decide⟩
  · exact (C10_init (strBytes "wbin") (some contentW)).2.2.2.2.2.2.1 fileW TRMM_init_W
